import Mathlib

/-!
Verification development for the procedural digging minigame of the `coined`
Discord economy bot (`app/features/digging.py`, `app/data/biomes.py`,
`app/data/items.py`, `app/features/wheel.py`, `app/extensions/profit.py`).

The Python code is shallowly embedded:

* Python `int` becomes `ℤ`, Python `float` values produced by the digging
  arithmetic (cell HP, damage, multipliers) become `ℚ` (the code only ever
  performs exact `+ - * / min round` operations on them, so `ℚ` is a faithful
  carrier of all the values that actually occur);
* `None`-able values become `Option`;
* operations that can raise (`IndexError` on list indexing,
  `ZeroDivisionError`, `AttributeError` on a `None` cell, unbounded `while`
  loops) return `Option`/`Except` (a `none`/`.error` result models "the Python
  call raised / did not return normally"; `while` loops take explicit fuel and
  return `none` on exhaustion);
* calls into the `random` module are replaced by oracle parameters: the
  theorems quantify over the oracle values, constrained exactly by the
  documented guarantees of the corresponding `random` function
  (`randrange(0, n) < n`, `sample(range(n), k)` is `Nodup` with entries `< n`,
  `uniform(a, b)` lies between `a` and `b`, ...);
* Python `dict`s become insertion-ordered association lists.
-/

/-- `ItemType` enum from `app/data/items.py`. -/
inductive ItemType where
  | tool
  | power_up
  | fish
  | wood
  | crate
  | collectible
  | worm
  | ore
  | crop
  | harvest
  | net
  | dirt
  | miscellaneous
deriving DecidableEq, Repr

/-- The fields of `Item` (`app/data/items.py`) that the digging core reads:
identity `key`, `type`, digging resistance `hp` (`int`, default 0) and
backpack storage cost `volume` (`int`, default 1).  Python compares items by
`key`; every key in the data tables names exactly one item, so structural
equality coincides with Python equality on the embedded data. -/
structure Item where
  key : String
  type : ItemType
  hp : ℤ := 0
  volume : ℤ := 1
deriving DecidableEq, Repr

/-- `Cell` dataclass from `app/features/digging.py`. -/
structure Cell where
  coins : ℤ
  item : Option Item
  dirt_index : ℕ
  hp : ℚ := 0
deriving DecidableEq, Repr

/-- `Layer` from `app/data/biomes.py`; the tile-colouring fields are

rendering-only and are not part of the embedding.  `items` is the spawn
weight table (a Python dict, embedded as an insertion-ordered list;
a `none` key means "no item, coins instead"). -/
structure Layer where
  depth : ℤ
  items : List (Option Item × ℚ)
  dirt : Item
deriving DecidableEq, Repr

/-- `Biome` from `app/data/biomes.py` (display metadata dropped). -/
structure Biome where
  key : String
  layers : List Layer
deriving DecidableEq, Repr

/-- Python list indexing `l[i]`: non-negative indices from the front,
negative indices from the back, `none` models `IndexError`. -/
def pyIdx {α : Type} (l : List α) (i : ℤ) : Option α :=
  if 0 ≤ i then l.get? i.toNat
  else if -(l.length : ℤ) ≤ i then l.get? ((l.length : ℤ) + i).toNat
  else none

/-- `bisect.bisect_left(a, y)` on a list sorted ascending: the first index
whose element is `≥ y`, i.e. the length of the prefix of elements `< y`.
(The Python function binary-searches; on ascending lists, which is the only
way the repository calls it, the two agree.) -/
def bisect_left (depths : List ℤ) (y : ℤ) : ℕ :=
  (depths.takeWhile (fun d => decide (d < y))).length

/-- `Biome.get_layer` from `app/data/biomes.py`:

```python
if y < 1:
    return self.layers[0]
return self.layers[bisect_left(self.layers, y, key=lambda layer: layer.depth) - 1]
```
-/
def Biome.get_layer (b : Biome) (y : ℤ) : Option Layer :=
  if y < 1 then pyIdx b.layers 0
  else pyIdx b.layers ((bisect_left (b.layers.map Layer.depth) y : ℤ) - 1)

namespace Items

/-! The items appearing in the `Biomes.backyard` spawn tables, with the
`type` / `hp` / `volume` values from `app/data/items.py`. -/

def dirt : Item := { key := "dirt", type := .dirt, hp := 1 }

def clay : Item := { key := "clay", type := .dirt, hp := 3 }

def gravel : Item := { key := "gravel", type := .dirt, hp := 5 }

def limestone : Item := { key := "limestone", type := .dirt, hp := 8 }

def granite : Item := { key := "granite", type := .dirt, hp := 12 }

def magma : Item := { key := "magma", type := .dirt, hp := 20 }

def worm : Item := { key := "worm", type := .worm, hp := 3 }

def gummy_worm : Item := { key := "gummy_worm", type := .worm, hp := 5, volume := 2 }

def earthworm : Item := { key := "earthworm", type := .worm, hp := 10, volume := 2 }

def hook_worm : Item := { key := "hook_worm", type := .worm, hp := 15, volume := 2 }

def poly_worm : Item := { key := "poly_worm", type := .worm, hp := 20, volume := 2 }

def ancient_relic : Item := { key := "ancient_relic", type := .collectible, hp := 30, volume := 3 }

def iron : Item := { key := "iron", type := .ore, hp := 2 }

def copper : Item := { key := "copper", type := .ore, hp := 4 }

def silver : Item := { key := "silver", type := .ore, hp := 6 }

def gold : Item := { key := "gold", type := .ore, hp := 8 }

def obsidian : Item := { key := "obsidian", type := .ore, hp := 10, volume := 2 }

def emerald : Item := { key := "emerald", type := .ore, hp := 12, volume := 2 }

def diamond : Item := { key := "diamond", type := .ore, hp := 20, volume := 3 }

end Items

namespace Biomes

/-- Spawn table shared shape for the backyard layers
(`app/data/biomes.py`, `Biomes.backyard`). -/
def backyardTable (nothing worm gummy earth hook poly relic iron copper silver gold obsidian emerald diamond : ℚ) :
    List (Option Item × ℚ) :=
  [(none, nothing),
   (some Items.worm, worm), (some Items.gummy_worm, gummy), (some Items.earthworm, earth),
   (some Items.hook_worm, hook), (some Items.poly_worm, poly), (some Items.ancient_relic, relic),
   (some Items.iron, iron), (some Items.copper, copper), (some Items.silver, silver),
   (some Items.gold, gold), (some Items.obsidian, obsidian), (some Items.emerald, emerald),
   (some Items.diamond, diamond)]

/-- `Biomes.backyard` from `app/data/biomes.py`. -/
def backyard : Biome :=
  { key := "backyard"
    layers :=
      [{ depth := 0
         items := backyardTable 
           (mkRat 2 1) (mkRat 25 100) (mkRat 8 100) (mkRat 3 100) (mkRat 75 10000) (mkRat 25 10000) (mkRat 5 100000) (mkRat 5 10) (mkRat 17 100) (mkRat 75 1000) (mkRat 15 1000) (mkRat 5 1000) (mkRat 15 10000) (mkRat 3 10000)
         dirt := Items.dirt },
       { depth := 20
         items := backyardTable 
           (mkRat 18 10) (mkRat 3 10) (mkRat 2 10) (mkRat 7 100) (mkRat 2 100) (mkRat 7 1000) (mkRat 1 10000) (mkRat 5 10) (mkRat 25 100) (mkRat 1 10) (mkRat 3 100) (mkRat 75 10000) (mkRat 3 1000) (mkRat 75 100000)
         dirt := Items.clay },
       { depth := 40
         items := backyardTable 
           (mkRat 15 10) (mkRat 4 10) (mkRat 3 10) (mkRat 15 100) (mkRat 5 100) (mkRat 2 100) (mkRat 4 10000) (mkRat 5 10) (mkRat 3 10) (mkRat 15 100) (mkRat 5 100) (mkRat 15 1000) (mkRat 75 10000) (mkRat 2 1000)
         dirt := Items.gravel },
       { depth := 60
         items := backyardTable 
           (mkRat 12 10) (mkRat 3 10) (mkRat 3 10) (mkRat 25 100) (mkRat 8 100) (mkRat 4 100) (mkRat 1 1000) (mkRat 5 10) (mkRat 4 10) (mkRat 25 100) (mkRat 15 100) (mkRat 3 100) (mkRat 15 1000) (mkRat 5 1000)
         dirt := Items.limestone },
       { depth := 80
         items := backyardTable 
           (mkRat 10 10) (mkRat 3 10) (mkRat 3 10) (mkRat 3 10) (mkRat 10 100) (mkRat 6 100) (mkRat 3 1000) (mkRat 5 10) (mkRat 5 10) (mkRat 4 10) (mkRat 3 10) (mkRat 1 10) (mkRat 4 100) (mkRat 2 100)
         dirt := Items.granite },
       { depth := 100
         items := backyardTable 
           (mkRat 8 10) (mkRat 3 10) (mkRat 3 10) (mkRat 3 10) (mkRat 2 10) (mkRat 1 10) (mkRat 6 1000) (mkRat 5 10) (mkRat 5 10) (mkRat 4 10) (mkRat 4 10) (mkRat 4 10) (mkRat 1 10) (mkRat 5 100)
         dirt := Items.magma }] }

end Biomes

/-- The property claimed of `get_layer`: the result is the layer of greatest
`depth ≤ max y 0`. -/
def IsGreatestDepthLE (b : Biome) (y : ℤ) (L : Layer) : Prop :=
  L ∈ b.layers ∧ L.depth ≤ max y 0 ∧ ∀ L' ∈ b.layers, L'.depth ≤ max y 0 → L'.depth ≤ L.depth

instance (b : Biome) (y : ℤ) (L : Layer) : Decidable (IsGreatestDepthLE b y L) := by
  unfold IsGreatestDepthLE; infer_instance

/-! ### Kernel-evaluable rational arithmetic

The standard `ℚ` operations in Batteries are `@[irreducible]`, which blocks
`decide`-style evaluation of concrete digging scenarios.  The embedding
therefore uses the wrappers below, each proved equal to the standard
operation, so that general theorems can freely rewrite to `+ - * /`. -/

/-- `a + b` on `ℚ`, in evaluable form. -/
def qadd (a b : ℚ) : ℚ := mkRat (a.num * b.den + b.num * a.den) (a.den * b.den)

/-- `a - b` on `ℚ`, in evaluable form. -/
def qsub (a b : ℚ) : ℚ := mkRat (a.num * b.den - b.num * a.den) (a.den * b.den)

/-- `a * b` on `ℚ`, in evaluable form. -/
def qmul (a b : ℚ) : ℚ := Rat.normalize (a.num * b.num) (a.den * b.den) (Nat.mul_ne_zero a.den_nz b.den_nz)

/-- `a⁻¹` on `ℚ`, in evaluable form. -/
def qinv (a : ℚ) : ℚ := Rat.divInt a.den a.num

/-- `a / b` on `ℚ`, in evaluable form. -/
def qdiv (a b : ℚ) : ℚ := qmul a (qinv b)

/-- `(n : ℚ)`, in evaluable form. -/
def qofInt (n : ℤ) : ℚ := Rat.divInt n 1

theorem qadd_eq (a b : ℚ) : qadd a b = a + b := (Rat.add_def' a b).symm

theorem qsub_eq (a b : ℚ) : qsub a b = a - b := (Rat.sub_def' a b).symm

theorem qmul_eq (a b : ℚ) : qmul a b = a * b := (Rat.mul_def a b).symm

theorem qinv_eq (a : ℚ) : qinv a = a⁻¹ := by
  rw [qinv, ← Rat.inv_def]; rfl

theorem qdiv_eq (a b : ℚ) : qdiv a b = a / b := by
  rw [qdiv, qmul_eq, qinv_eq, div_eq_mul_inv]

theorem qofInt_eq (n : ℤ) : qofInt n = (n : ℚ) := by
  rw [qofInt, Rat.divInt_one]

/-- `⌊q⌋` in evaluable form (the denominator of a `Rat` is positive, so
flooring division of the numerator by the denominator is the floor). -/
def qfloor (q : ℚ) : ℤ := q.num.fdiv q.den

/-- Python's built-in `round` (round-half-to-even), on exact rationals. -/
def pyRound (q : ℚ) : ℤ :=
  let f := qfloor q
  let r := qsub q (qofInt f)
  if r < mkRat 1 2 then f
  else if mkRat 1 2 < r then f + 1
  else if f % 2 = 0 then f else f + 1

/-! ### Grid and session constants (`DiggingSession` class attributes) -/

def GRID_WIDTH : ℕ := 9

def CELL_WIDTH : ℕ := 48

def IMAGE_WIDTH : ℕ := GRID_WIDTH * CELL_WIDTH

def IMAGE_HEIGHT : ℕ := IMAGE_WIDTH

def Y_OFFSET : ℕ := IMAGE_HEIGHT / 2 - CELL_WIDTH / 2

def GEN_IMAGES_PER_DIRT : ℕ := 8

/-- `ceil(Y_OFFSET / CELL_WIDTH)` (exact: `192/48 = 4`). -/
def available_above : ℕ := (Y_OFFSET + CELL_WIDTH - 1) / CELL_WIDTH

/-- `ceil((IMAGE_HEIGHT - Y_OFFSET) / CELL_WIDTH)` (exact: `240/48 = 5`). -/
def available_below : ℕ := (IMAGE_HEIGHT - Y_OFFSET + CELL_WIDTH - 1) / CELL_WIDTH

/-- `DiggingSession.SPAWN_COUNT`: weight table for the number of non-dirt
spawns per generated row. -/
def SPAWN_COUNT : List (ℕ × ℚ) :=
  [(0, 4), (1, 6), (2, 4), (3, 2), (4, 1)]

/-! ### Row generation

`DiggingSession.generate_row` calls `random` four ways; the embedding passes
the drawn values in as a `RowPlan` oracle:

* `base_dirt_idx i`: the `random.randrange(0, GEN_IMAGES_PER_DIRT)` draw for
  base column `i`;
* `spawns`: the `weighted_choice(SPAWN_COUNT)` draw, `positions`: the
  `random.sample(range(GRID_WIDTH), spawns)` draw;
* `spawn_dirt_idx i`, `spawn_draw i`, `coin_roll i`: the `randrange`,
  `weighted_choice(layer.items)` and `random.uniform(10*y, 20*y)` draws for
  the `i`-th entry of `positions`. -/
structure RowPlan where
  base_dirt_idx : ℕ → ℕ
  spawns : ℕ
  positions : List ℕ
  spawn_dirt_idx : ℕ → ℕ
  spawn_draw : ℕ → Option Item
  coin_roll : ℕ → ℚ

/-- The guarantees Python's `random` module gives for the draws recorded in a
`RowPlan`, for a row of layer `layer` at depth `y` (see the `RowPlan` doc). -/
def RowPlan.Lawful (plan : RowPlan) (layer : Layer) (y : ℤ) : Prop :=
  (∀ i, plan.base_dirt_idx i < GEN_IMAGES_PER_DIRT) ∧
  plan.spawns ∈ SPAWN_COUNT.map Prod.fst ∧
  plan.positions.Nodup ∧ (∀ p ∈ plan.positions, p < GRID_WIDTH) ∧
  plan.positions.length = plan.spawns ∧
  (∀ i, plan.spawn_dirt_idx i < GEN_IMAGES_PER_DIRT) ∧
  (∀ i, plan.spawn_draw i ∈ layer.items.map Prod.fst) ∧
  (∀ i, min ((10 : ℚ) * y) (20 * y) ≤ plan.coin_roll i ∧
        plan.coin_roll i ≤ max ((10 : ℚ) * y) (20 * y))

/-- `DiggingSession.generate_row`, given the biome and coin multiplier the
method reads from `self` and the `RowPlan` oracle.  `none` models the
`IndexError` raised by `get_layer` on a biome with no layers. -/
def generate_row (biome : Biome) (coin_multiplier : ℚ) (plan : RowPlan) (y : ℤ) :
    Option (List (Option Cell)) :=
  (biome.get_layer y).map fun layer =>
    let base := (List.range GRID_WIDTH).map fun i =>
      some { coins := 0, item := some layer.dirt, dirt_index := plan.base_dirt_idx i,
             hp := qofInt layer.dirt.hp }
    if y = 0 then base
    else
      plan.positions.enum.foldl (fun row (ipos : ℕ × ℕ) =>
        match plan.spawn_draw ipos.1 with
        | none =>
          row.set ipos.2 (some { coins := pyRound (qmul (plan.coin_roll ipos.1) coin_multiplier),
                                 item := none, dirt_index := plan.spawn_dirt_idx ipos.1, hp := 0 })
        | some item =>
          row.set ipos.2 (some { coins := 0, item := some item,
                                 dirt_index := plan.spawn_dirt_idx ipos.1, hp := qofInt item.hp }))
        base

/-! ### The digging session state machine -/

abbrev Grid := List (List (Option Cell))

/-- `DiggingSession.Target`. -/
inductive Target where
  | down
  | left
  | right
deriving DecidableEq, Repr

/-- The mutable state of a `DiggingSession` plus the player-derived modifiers
fetched by `prepare()` (tools are embedded by their `metadata.strength`, the
backpack by its `capacity`).  `plans` is the row-generation randomness oracle,
indexed by the grid row the Python code would generate. -/
structure DiggingSession where
  biome : Biome
  posX : ℤ
  posY : ℤ
  target : Target
  grid : Grid
  explored : Finset (ℤ × ℤ)
  collected_coins : ℤ
  collected_items : List (Item × ℕ)
  coin_multiplier : ℚ
  hp_multiplier : ℚ
  shovel : Option ℤ
  pickaxe : Option ℤ
  stamina : ℤ
  capacity : ℤ
  plans : ℕ → RowPlan

/-- `DiggingSession.backpack_occupied`:
`sum(quantity * item.volume for item, quantity in self.collected_items.items())`. -/
def backpack_occupied (s : DiggingSession) : ℤ :=
  (s.collected_items.map fun p => (p.2 : ℤ) * p.1.volume).sum

/-- `self.collected_items[item] += 1` on the insertion-ordered dict. -/
def bumpItem : List (Item × ℕ) → Item → List (Item × ℕ)
  | [], it => [(it, 1)]
  | (i, n) :: rest, it =>
    if i = it then (i, n + 1) :: rest else (i, n) :: bumpItem rest it

/-- `self.grid[y][x]` (outer `none` = `IndexError`; `some none` = excavated
slot; `some (some c)` = cell `c`). -/
def gridGet (g : Grid) (x y : ℤ) : Option (Option Cell) :=
  (pyIdx g y).bind fun row => pyIdx row x

/-- Python `l[i] = a` for an index that is in range (the call sites below
only assign to indices they have just successfully read). -/
def pySet {α : Type} (l : List α) (i : ℤ) (a : α) : List α :=
  if 0 ≤ i then l.set i.toNat a
  else if -(l.length : ℤ) ≤ i then l.set ((l.length : ℤ) + i).toNat a
  else l

/-- `self.grid[y][x] = v`. -/
def gridSet (g : Grid) (x y : ℤ) (v : Option Cell) : Grid :=
  match pyIdx g y with
  | none => g
  | some row => pySet g y (pySet row x v)

/-- The value `collect` returns: Python `None`, an `int` coin payout, or an
`Item`. -/
inductive CollectOut where
  | nothing
  | coins (n : ℤ)
  | item (it : Item)
deriving DecidableEq, Repr

/-- `DiggingSession.collect(x, y)`.  `none` models the `IndexError` raised by
`self.grid[y][x]` on an out-of-range coordinate. -/
def collect (s : DiggingSession) (x y : ℤ) : Option (CollectOut × DiggingSession) :=
  match gridGet s.grid x y with
  | none => none
  | some slot =>
    let s1 := { s with grid := gridSet s.grid x y none }
    let os2 : CollectOut × DiggingSession :=
      match slot with
      | none => (CollectOut.nothing, s1)
      | some cell =>
        let osa : CollectOut × DiggingSession :=
          if cell.coins ≠ 0 then
            (CollectOut.coins cell.coins,
             { s1 with collected_coins := s1.collected_coins + cell.coins })
          else (CollectOut.nothing, s1)
        match cell.item with
        | some it =>
          (CollectOut.item it,
           { osa.2 with collected_items := bumpItem osa.2.collected_items it })
        | none => osa
    some (os2.1, { os2.2 with explored := insert (x, y) os2.2.explored })

/-- `DiggingSession.target_xy`. -/
def target_xy (s : DiggingSession) : ℤ × ℤ :=
  match s.target with
  | Target.down => (s.posX, s.posY + 1)
  | Target.left => (s.posX - 1, s.posY)
  | Target.right => (s.posX + 1, s.posY)

/-- `DiggingSession.target_cell`. -/
def target_cell (s : DiggingSession) : Option (Option Cell) :=
  gridGet s.grid (target_xy s).1 (target_xy s).2

/-- `DiggingSession.collect_target`. -/
def collect_target (s : DiggingSession) : Option (CollectOut × DiggingSession) :=
  let xy := target_xy s
  if xy.2 < 0 ∨ xy.1 < 0 ∨ (GRID_WIDTH : ℤ) ≤ xy.1 then some (CollectOut.nothing, s)
  else collect s xy.1 xy.2

/-- `DiggingSession.y_range.start`: `max(0, self.y) - available_above`. -/
def y_range_start (s : DiggingSession) : ℤ := max 0 s.posY - (available_above : ℤ)

/-- `DiggingSession._cleanup_explored`. -/
def cleanup_explored (s : DiggingSession) : DiggingSession :=
  { s with explored := s.explored.filter fun p => y_range_start s ≤ p.2 }

/-- `DiggingSession.move`.  The final `self.position = self.target_xy`
re-reads `target_xy`, but neither `target` nor `position` changes in
between, so it equals the `(x, y)` read at entry. -/
def move (s : DiggingSession) : Option (CollectOut × DiggingSession) :=
  match (if 0 ≤ (target_xy s).2 then collect_target s else some (CollectOut.nothing, s)) with
  | none => none
  | some (out, s1) =>
    match (if s1.target = Target.down then
        match generate_row s1.biome s1.coin_multiplier (s1.plans s1.grid.length)
            (s1.grid.length : ℤ) with
        | none => none
        | some row => some (cleanup_explored { s1 with grid := s1.grid ++ [row] })
      else some s1) with
    | none => none
    | some s2 => some (out, { s2 with posX := (target_xy s).1, posY := (target_xy s).2 })

/-- The loop `while self.target_cell is None: self.move()` (used by
`TargetActionRow.dig` and `DiggingSession.surrounding_dig`), with fuel;
`none` models an `IndexError` inside the loop or fuel exhaustion. -/
def move_while_empty : ℕ → DiggingSession → Option DiggingSession
  | 0, _ => none
  | fuel + 1, s =>
    match target_cell s with
    | none => none
    | some (some _) => some s
    | some none =>
      match move s with
      | none => none
      | some (_, s1) => move_while_empty fuel s1
/-- Tallying a `move`/`collect` result into the local `added_coins` /
`added_items` accumulators (`isinstance(out, int)` / `isinstance(out, Item)`
in the source). -/
def tally (added_coins : ℤ) (added_items : List (Item × ℕ)) :
    CollectOut → ℤ × List (Item × ℕ)
  | CollectOut.nothing => (added_coins, added_items)
  | CollectOut.coins n => (added_coins + n, added_items)
  | CollectOut.item it => (added_coins, bumpItem added_items it)

/-- The session-mutating core of `TargetActionRow.dig` (the quest-progress,
XP and UI side effects live outside the session and are not part of the
embedding).  Returns `hp_dealt` and the updated session; `none` models the
`AttributeError` on a `None` target cell, an `IndexError`, or fuel
exhaustion of the fall loop. -/
def dig (fuel : ℕ) (s : DiggingSession) : Option (ℚ × DiggingSession) :=
  match target_cell s with
  | none => none
  | some none => none
  | some (some cell) =>
    let tool := if cell.item.any (fun it => it.type == ItemType.ore) then s.pickaxe else s.shovel
    let strength : ℤ := tool.getD 1
    let hp_dealt := min (qmul (qofInt strength) s.hp_multiplier) cell.hp
    let s1 : DiggingSession :=
      { s with grid := gridSet s.grid (target_xy s).1 (target_xy s).2
                 (some { cell with hp := qsub cell.hp hp_dealt })
               stamina := s.stamina - 1 }
    match target_cell s1 with
    | none => none
    | some none => none
    | some (some cell2) =>
      if cell2.hp ≤ 0 then
        if s1.target = Target.down then
          match move s1 with
          | none => none
          | some (_, s2) =>
            match move_while_empty fuel s2 with
            | none => none
            | some s3 => some (hp_dealt, s3)
        else
          match collect_target s1 with
          | none => none
          | some (_, s2) => some (hp_dealt, s2)
      else some (hp_dealt, s1)

/-- The `while remaining > 0` loop of `DiggingSession.cascading_dig`, with
fuel.  `none` models `IndexError` (from `target_cell`/`move`) or fuel
exhaustion. -/
def cascading_loop :
    ℕ → ℚ → ℤ → List (Item × ℕ) → DiggingSession →
    Option (ℤ × List (Item × ℕ) × DiggingSession)
  | 0, _, _, _, _ => none
  | fuel + 1, remaining, added_coins, added_items, s =>
    if ¬ 0 < remaining then some (added_coins, added_items, s)
    else
      match target_cell s with
      | none => none
      | some none =>
        match move s with
        | none => none
        | some (out, s1) =>
          cascading_loop fuel remaining (tally added_coins added_items out).1
            (tally added_coins added_items out).2 s1
      | some (some cell) =>
        if cell.hp ≤ remaining then
          -- `remaining >= self.target_cell.hp`: consume the cell fully
          let remaining1 := qsub remaining cell.hp
          if cell.item.any (fun it => decide (s.capacity < backpack_occupied s + it.volume)) then
            some (added_coins, added_items, s)  -- `break`
          else
            match move s with
            | none => none
            | some (out, s1) =>
              cascading_loop fuel remaining1 (tally added_coins added_items out).1
                (tally added_coins added_items out).2 s1
        else
          -- partial damage: `self.target_cell.hp -= remaining; remaining = 0`
          let xy := target_xy s
          let s1 : DiggingSession :=
            { s with grid := gridSet s.grid xy.1 xy.2 (some { cell with hp := qsub cell.hp remaining }) }
          cascading_loop fuel 0 added_coins added_items s1

/-- `DiggingSession.cascading_dig(total_hp)` (the quest side effect is
outside the session). -/
def cascading_dig (fuel : ℕ) (total_hp : ℤ) (s : DiggingSession) :
    Option (ℤ × List (Item × ℕ) × DiggingSession) :=
  cascading_loop fuel (qofInt total_hp) 0 [] { s with target := Target.down }

/-- Accumulator of the area-damage loop of `surrounding_dig`. -/
structure SurrAcc where
  total_hp : ℚ
  added_coins : ℤ
  added_items : List (Item × ℕ)
  s : DiggingSession

/-- The uncaught exceptions the `surrounding_dig` area loop can raise: the
`ZeroDivisionError` of `base_hp / distance` at `distance = 0`, or an
`IndexError` on a malformed (shorter than `GRID_WIDTH`) row. -/
inductive SurrErr where
  | zeroDiv
  | indexErr
deriving DecidableEq, Repr

/-- Body of the inner loop of `DiggingSession.surrounding_dig` for the grid
coordinate `(x, y)`; `cx`/`cy` are `self.x`/`self.y` (constant throughout
the loop). -/
def surrounding_cell_step (base_hp radius cx cy : ℤ) (acc : SurrAcc) (x y : ℤ) :
    Except SurrErr SurrAcc :=
  if x < 0 ∨ (GRID_WIDTH : ℤ) ≤ x then .ok acc
  else
    let distance := (x - cx) ^ 2 + (y - cy) ^ 2
    if radius ^ 2 < distance then .ok acc
    else
      match gridGet acc.s.grid x y with
      | none => .error SurrErr.indexErr
      | some none => .ok acc
      | some (some cell) =>
        if cell.item.any (fun it => decide (acc.s.capacity < backpack_occupied acc.s + it.volume)) then
          .ok acc
        else if distance = 0 then .error SurrErr.zeroDiv
        else
          let damage := qdiv (qofInt base_hp) (qofInt distance)
          let total1 := qadd acc.total_hp (min cell.hp damage)
          let hp1 := qsub cell.hp damage
          let s1 : DiggingSession :=
            { acc.s with grid := gridSet acc.s.grid x y (some { cell with hp := hp1 }) }
          if hp1 ≤ 0 then
            match collect s1 x y with
            | none => .error SurrErr.indexErr
            | some (out, s2) =>
              let ta := tally acc.added_coins acc.added_items out
              .ok { total_hp := total1, added_coins := ta.1, added_items := ta.2, s := s2 }
          else .ok { acc with total_hp := total1, s := s1 }

/-- `range(a, b)`. -/
def intRange (a b : ℤ) : List ℤ := (List.range (b - a).toNat).map fun i => a + i

/-- The area-damage double loop of `DiggingSession.surrounding_dig`. -/
def surrounding_loop (base_hp radius : ℤ) (s : DiggingSession) : Except SurrErr SurrAcc :=
  let cx := s.posX
  let cy := s.posY
  (intRange (cy - radius) (cy + radius + 1)).foldlM
    (fun acc y =>
      if y < 0 ∨ (acc.s.grid.length : ℤ) ≤ y then .ok acc
      else
        (intRange (cx - radius) (cx + radius + 1)).foldlM
          (fun acc x => surrounding_cell_step base_hp radius cx cy acc x y) acc)
    { total_hp := 0, added_coins := 0, added_items := [], s := s }

/-- `DiggingSession.surrounding_dig(base_hp, radius=2)` (quest side effect
outside the session): the area-damage loop, then `self.target = down`
followed by the `while self.target_cell is None: self.move()`
normalization. -/
def surrounding_dig (fuel : ℕ) (base_hp : ℤ) (radius : ℤ) (s : DiggingSession) :
    Option (ℚ × ℤ × List (Item × ℕ) × DiggingSession) :=
  match surrounding_loop base_hp radius s with
  | .error _ => none
  | .ok acc =>
    (move_while_empty fuel { acc.s with target := Target.down }).map fun s1 =>
      (acc.total_hp, acc.added_coins, acc.added_items, s1)
/-! ### `weighted_sample` from `app/features/wheel.py`

```python
def weighted_sample(k, src):
    src = src.copy(); choices = []
    for _ in range(k):
        r = random.uniform(0, sum(src.values()))
        cumulative_weight = 0.0
        for item, weight in src.items():
            cumulative_weight += weight
            if r < cumulative_weight:
                choices.append(item); src.pop(item); break
    return choices
```

The `random.uniform` draws become the oracle `rand : ℕ → ℚ` (round `j` uses
`rand j`); an ideal uniform draw on `[0, S]` satisfies `0 ≤ rand j` and,
outside a probability-zero event, `rand j < S`. -/

/-- `sum(src.values())`. -/
def sumWeights {α : Type} (src : List (α × ℚ)) : ℚ :=
  src.foldl (fun acc p => qadd acc p.2) 0

/-- The inner `for item, weight in src.items()` loop: first key whose running
cumulative weight exceeds `r` (with `acc` the cumulative weight so far). -/
def cumulFind {α : Type} (r : ℚ) : ℚ → List (α × ℚ) → Option α
  | _, [] => none
  | acc, (a, w) :: rest => if r < qadd acc w then some a else cumulFind r (qadd acc w) rest

/-- `weighted_sample(k, src)` with the uniform draws supplied by `rand`
(round `j` draws `rand j`; the top-level call starts at `j = 0`). -/
def weighted_sample {α : Type} [DecidableEq α] :
    ℕ → List (α × ℚ) → (ℕ → ℚ) → ℕ → List α
  | 0, _, _, _ => []
  | k + 1, src, rand, j =>
    match cumulFind (rand j) 0 src with
    | none => weighted_sample k src rand (j + 1)
    | some a => a :: weighted_sample k (src.eraseP fun p => decide (p.1 = a)) rand (j + 1)

/-- The `uniform(0, sum(src.values()))` guarantee for every round of
`weighted_sample`, checked along the actual execution. -/
def randOK {α : Type} [DecidableEq α] :
    ℕ → List (α × ℚ) → (ℕ → ℚ) → ℕ → Bool
  | 0, _, _, _ => true
  | k + 1, src, rand, j =>
    decide (0 ≤ rand j) && decide (rand j < sumWeights src) &&
    match cumulFind (rand j) 0 src with
    | none => randOK k src rand (j + 1)
    | some a => randOK k (src.eraseP fun p => decide (p.1 = a)) rand (j + 1)

namespace Profit

/-! ### `Profit.weighted_sample` from `app/extensions/profit.py`

```python
weights = list(weights); positions = range(len(population)); indices = []
while True:
    needed = k - len(indices)
    if not needed: break
    for i in random.choices(positions, weights, k=needed):
        if weights[i]:
            weights[i] = 0.0
            indices.append(i)
return [population[i] for i in indices]
```

The `random.choices` draws become the oracle `batches : ℕ → List ℕ`
(iteration `t` of the `while` loop uses `batches t`); `random.choices`
returns exactly `k=needed` positions, each in range and — outside a
probability-zero event — of nonzero weight at call time. -/

/-- The `for i in ...` body over one drawn batch, threading
`(indices, weights)`. -/
def processBatch : List ℕ → List ℕ × List ℚ → List ℕ × List ℚ
  | [], st => st
  | i :: rest, (indices, weights) =>
    if weights.getD i 0 ≠ 0 then processBatch rest (indices ++ [i], weights.set i 0)
    else processBatch rest (indices, weights)

/-- The `while True` loop, with fuel (under the `batchesOK` guarantee below
the loop needs at most `k` iterations). -/
def sample_loop (k : ℕ) (batches : ℕ → List ℕ) :
    ℕ → List ℕ → List ℚ → ℕ → List ℕ
  | 0, indices, _, _ => indices
  | fuel + 1, indices, weights, t =>
    if k - indices.length = 0 then indices
    else
      let st := processBatch (batches t) (indices, weights)
      sample_loop k batches fuel st.1 st.2 (t + 1)

/-- The final `[population[i] for i in indices]`; `none` models an
`IndexError` from `population[i]`. -/
def pyGets {α : Type} (population : List α) : List ℕ → Option (List α)
  | [] => some []
  | i :: rest =>
    match population.get? i, pyGets population rest with
    | some a, some l => some (a :: l)
    | _, _ => none

/-- `Profit.weighted_sample(population, weights, k)`; `none` models an
`IndexError` from `population[i]`. -/
def weighted_sample {α : Type} (population : List α) (weights : List ℚ) (k : ℕ)
    (batches : ℕ → List ℕ) (fuel : ℕ) : Option (List α) :=
  pyGets population (sample_loop k batches fuel [] weights 0)

/-- The `random.choices(positions, weights, k=needed)` guarantees for every
iteration of the loop, checked along the actual execution; at fuel
exhaustion the loop must already have terminated. -/
def batchesOK (k : ℕ) (batches : ℕ → List ℕ) :
    ℕ → List ℕ → List ℚ → ℕ → Bool
  | 0, indices, _, _ => k - indices.length == 0
  | fuel + 1, indices, weights, t =>
    (k - indices.length == 0) ||
    ((batches t).length == k - indices.length &&
     (batches t).all (fun i => i < weights.length && weights.getD i 0 != 0) &&
     (let st := processBatch (batches t) (indices, weights)
      batchesOK k batches fuel st.1 st.2 (t + 1)))

end Profit
/-! ### List helper lemmas -/

theorem takeWhile_get?_sat {α : Type} {p : α → Bool} :
    ∀ (l : List α) (i : ℕ), i < (l.takeWhile p).length →
      ∃ a, l.get? i = some a ∧ p a = true := by
  intro l
  induction l with
  | nil => intro i h; simp [List.takeWhile] at h
  | cons x xs ih =>
    intro i h
    by_cases hx : p x
    · rw [List.takeWhile_cons_of_pos hx] at h
      cases i with
      | zero => exact ⟨x, rfl, hx⟩
      | succ j => exact ih j (Nat.lt_of_succ_lt_succ h)
    · rw [List.takeWhile_cons_of_neg hx] at h
      simp at h

theorem takeWhile_stop_get? {α : Type} {p : α → Bool} :
    ∀ l : List α, (l.takeWhile p).length < l.length →
      ∃ a, l.get? (l.takeWhile p).length = some a ∧ p a = false := by
  intro l
  induction l with
  | nil => intro h; simp at h
  | cons x xs ih =>
    intro h
    by_cases hx : p x
    · rw [List.takeWhile_cons_of_pos hx] at h ⊢
      obtain ⟨a, ha, hpa⟩ := ih (Nat.lt_of_succ_lt_succ h)
      exact ⟨a, ha, hpa⟩
    · rw [List.takeWhile_cons_of_neg hx]
      exact ⟨x, rfl, by simpa using hx⟩

theorem list_set_self {α : Type} :
    ∀ (l : List α) (n : ℕ) (a : α), l.get? n = some a → l.set n a = l := by
  intro l
  induction l with
  | nil => intro n a h; simp at h
  | cons x xs ih =>
    intro n a h
    cases n with
    | zero => simp at h; simp [h]
    | succ m => simpa using ih m a (by simpa using h)

theorem takeWhile_get_sat {α : Type} {p : α → Bool} (l : List α) (i : ℕ)
    (h : i < (l.takeWhile p).length) (h2 : i < l.length) :
    p (l.get ⟨i, h2⟩) = true := by
  obtain ⟨a, ha, hpa⟩ := takeWhile_get?_sat l i h
  rw [List.get?_eq_get h2] at ha
  cases ha
  exact hpa

theorem takeWhile_stop_get {α : Type} {p : α → Bool} (l : List α)
    (h : (l.takeWhile p).length < l.length) :
    p (l.get ⟨(l.takeWhile p).length, h⟩) = false := by
  obtain ⟨a, ha, hpa⟩ := takeWhile_stop_get? l h
  rw [List.get?_eq_get h] at ha
  cases ha
  exact hpa

theorem bisect_left_le_length (ds : List ℤ) (y : ℤ) : bisect_left ds y ≤ ds.length :=
  (List.takeWhile_prefix _).length_le

/-- On a strictly ascending list, `bisect_left ds y` separates the elements
`< y` (those at indices below it) from the elements `≥ y`. -/
theorem bisect_left_spec (ds : List ℤ) (y : ℤ) (hsorted : ds.Pairwise (· < ·))
    (i : ℕ) (h : i < ds.length) :
    i < bisect_left ds y ↔ ds.get ⟨i, h⟩ < y := by
  constructor
  · intro hik
    have := takeWhile_get_sat (p := fun d => decide (d < y)) ds i hik h
    simpa using this
  · intro hlt
    by_contra hik
    push_neg at hik
    have hklen : bisect_left ds y < ds.length := lt_of_le_of_lt hik h
    have hstop := takeWhile_stop_get (p := fun d => decide (d < y)) ds hklen
    have hky : ¬ (ds.get ⟨bisect_left ds y, hklen⟩ < y) := by simpa using hstop
    rcases Nat.lt_or_ge (bisect_left ds y) i with hlt2 | hge
    · have := (List.pairwise_iff_get.mp hsorted) ⟨_, hklen⟩ ⟨i, h⟩ (by simpa using hlt2)
      omega
    · have : i = bisect_left ds y := by omega
      subst this
      exact hky hlt

theorem depth_get (b : Biome) (i : ℕ) (h : i < b.layers.length) :
    (b.layers.map Layer.depth).get ⟨i, by simpa using h⟩ = (b.layers.get ⟨i, h⟩).depth := by
  simp

/-! ### Claim C1: `Biome.get_layer` -/

/-- C1 (corrected): for a biome whose layer depths are strictly ascending
with `layers[0].depth == 0`, `get_layer(y)` returns `layers[0]` for `y < 1`,
and for `y ≥ 1` it returns the layer with the greatest depth *strictly less
than* `y` (`bisect_left` insertion point, stepped back one index) — not the
layer of greatest depth `≤ max(y, 0)` as claimed: at a layer-boundary `y`
the layer whose depth equals `y` is skipped in favour of the previous one. -/
theorem C1_get_layer (b : Biome) (hzero : (b.layers.map Layer.depth).head? = some 0)
    (hsorted : (b.layers.map Layer.depth).Pairwise (· < ·)) (y : ℤ) :
    (y < 1 → b.get_layer y = b.layers.head?) ∧
    (1 ≤ y → ∃ L, b.get_layer y = some L ∧ L ∈ b.layers ∧ L.depth < y ∧
      ∀ L' ∈ b.layers, L'.depth < y → L'.depth ≤ L.depth) := by
  constructor
  · intro hy
    rw [Biome.get_layer, if_pos hy, pyIdx, if_pos le_rfl,
      show ((0:ℤ).toNat = 0) from rfl, List.get?_zero]
  · intro hy
    have hlen0 : 0 < b.layers.length := by
      cases hcase : b.layers with
      | nil => rw [hcase] at hzero; simp at hzero
      | cons _ _ => simp
    have hmap0 : 0 < (b.layers.map Layer.depth).length := by simpa using hlen0
    have hd0 : (b.layers.map Layer.depth).get ⟨0, hmap0⟩ = 0 := by
      have h := List.get?_eq_get hmap0
      rw [List.get?_zero, hzero] at h
      exact (Option.some_inj.mp h).symm
    have hk1 : 0 < bisect_left (b.layers.map Layer.depth) y := by
      rw [bisect_left_spec _ y hsorted 0 hmap0, hd0]
      omega
    have hkle := bisect_left_le_length (b.layers.map Layer.depth) y
    have hmaplen : (b.layers.map Layer.depth).length = b.layers.length := by simp
    have hidx : bisect_left (b.layers.map Layer.depth) y - 1 < b.layers.length := by omega
    have hmapidx : bisect_left (b.layers.map Layer.depth) y - 1 <
        (b.layers.map Layer.depth).length := by omega
    have hget : b.get_layer y =
        some (b.layers.get ⟨bisect_left (b.layers.map Layer.depth) y - 1, hidx⟩) := by
      rw [Biome.get_layer, if_neg (by omega), pyIdx,
        if_pos (by omega : (0:ℤ) ≤ (bisect_left (b.layers.map Layer.depth) y : ℤ) - 1)]
      rw [show ((bisect_left (b.layers.map Layer.depth) y : ℤ) - 1).toNat =
        bisect_left (b.layers.map Layer.depth) y - 1 by omega]
      exact List.get?_eq_get hidx
    refine ⟨_, hget, List.get_mem _ _ _, ?_, ?_⟩
    · have h := (bisect_left_spec _ y hsorted _ hmapidx).mp (by omega)
      rwa [depth_get b _ hidx] at h
    · intro L' hL' hdL'
      obtain ⟨j, hgetj⟩ := List.mem_iff_get.mp hL'
      have hjmap : j.1 < (b.layers.map Layer.depth).length := by omega
      have hjdepth : (b.layers.map Layer.depth).get ⟨j.1, hjmap⟩ = L'.depth := by
        rw [depth_get b j.1 j.2]
        exact congrArg Layer.depth hgetj
      have hjk : j.1 < bisect_left (b.layers.map Layer.depth) y := by
        rw [bisect_left_spec _ y hsorted j.1 hjmap, hjdepth]
        exact hdL'
      rcases Nat.lt_or_ge j.1 (bisect_left (b.layers.map Layer.depth) y - 1) with hjlt | hjge
      · have h := (List.pairwise_iff_get.mp hsorted) ⟨j.1, hjmap⟩ ⟨_, hmapidx⟩
          (by simpa using hjlt)
        rw [hjdepth, depth_get b _ hidx] at h
        exact le_of_lt h
      · have hjeq : j.1 = bisect_left (b.layers.map Layer.depth) y - 1 := by omega
        have heq : L' = b.layers.get ⟨bisect_left (b.layers.map Layer.depth) y - 1, hidx⟩ := by
          rw [← hgetj]
          congr 1
          exact Fin.ext hjeq
        rw [heq]

/-- C1 counterexample: on the real `backyard` biome (which satisfies the
claim's preconditions: depths `[0,20,40,60,80,100]` ascending, first depth
`0`), `get_layer(20)` returns the depth-`0` layer, which is *not* the layer
of greatest depth `≤ max(20, 0)` — the depth-`20` layer is. -/
theorem C1_cex :
    (Biomes.backyard.layers.map Layer.depth).head? = some 0 ∧
    (Biomes.backyard.layers.map Layer.depth).Pairwise (· < ·) ∧
    ∃ L, Biomes.backyard.get_layer 20 = some L ∧ L.depth = 0 ∧
      ¬ IsGreatestDepthLE Biomes.backyard 20 L := by
  refine ⟨by decide, by decide, Biomes.backyard.layers.get ⟨0, by decide⟩,
    by decide, by decide, by decide⟩

/-- C1 witness: at `y = 25` the amended statement instantiates to the real
`backyard` biome and picks the depth-`20` layer. -/
theorem C1_get_layer_witness :
    ∃ L, Biomes.backyard.get_layer 25 = some L ∧ L ∈ Biomes.backyard.layers ∧ L.depth < 25 ∧
      ∀ L' ∈ Biomes.backyard.layers, L'.depth < 25 → L'.depth ≤ L.depth :=
  (C1_get_layer Biomes.backyard (by decide) (by decide) 25).2 (by decide)

/-! ### Indexing lemmas for `pyIdx`/`pySet` -/

theorem length_pySet {α : Type} (l : List α) (i : ℤ) (a : α) :
    (pySet l i a).length = l.length := by
  unfold pySet
  split
  · simp
  · split
    · simp
    · rfl

theorem pySet_self {α : Type} (l : List α) (i : ℤ) (a : α) (h : pyIdx l i = some a) :
    pySet l i a = l := by
  unfold pyIdx at h
  unfold pySet
  by_cases h0 : 0 ≤ i
  · rw [if_pos h0] at h ⊢
    exact list_set_self _ _ _ h
  · rw [if_neg h0] at h ⊢
    by_cases h1 : -(l.length : ℤ) ≤ i
    · rw [if_pos h1] at h ⊢
      exact list_set_self _ _ _ h
    · rw [if_neg h1] at h
      simp at h

theorem pyIdx_pySet_self {α : Type} (l : List α) (i : ℤ) (a : α)
    (h : (pyIdx l i).isSome) : pyIdx (pySet l i a) i = some a := by
  unfold pyIdx at h
  by_cases h0 : 0 ≤ i
  · rw [if_pos h0] at h
    obtain ⟨b, hb⟩ := Option.isSome_iff_exists.mp h
    obtain ⟨hlt, -⟩ := List.get?_eq_some.mp hb
    have hset : pySet l i a = l.set i.toNat a := by
      unfold pySet; rw [if_pos h0]
    rw [hset]
    unfold pyIdx
    rw [if_pos h0]
    exact List.get?_set_eq_of_lt a hlt
  · rw [if_neg h0] at h
    by_cases h1 : -(l.length : ℤ) ≤ i
    · rw [if_pos h1] at h
      obtain ⟨b, hb⟩ := Option.isSome_iff_exists.mp h
      obtain ⟨hlt, -⟩ := List.get?_eq_some.mp hb
      have hset : pySet l i a = l.set ((l.length : ℤ) + i).toNat a := by
        unfold pySet; rw [if_neg h0, if_pos h1]
      rw [hset]
      unfold pyIdx
      rw [if_neg h0, List.length_set, if_pos h1]
      exact List.get?_set_eq_of_lt a hlt
    · rw [if_neg h1] at h
      simp at h

theorem length_gridSet (g : Grid) (x y : ℤ) (v : Option Cell) :
    (gridSet g x y v).length = g.length := by
  unfold gridSet
  cases hrow : pyIdx g y with
  | none => rfl
  | some row => exact length_pySet ..

theorem gridSet_self_of_none (g : Grid) (x y : ℤ) (h : gridGet g x y = some none) :
    gridSet g x y none = g := by
  unfold gridGet at h
  unfold gridSet
  cases hrow : pyIdx g y with
  | none => rfl
  | some row =>
    rw [hrow] at h
    simp only [Option.some_bind] at h
    show pySet g y (pySet row x none) = g
    rw [pySet_self row x none h, pySet_self g y row hrow]

theorem gridGet_gridSet_self (g : Grid) (x y : ℤ) (v : Option Cell)
    (h : (gridGet g x y).isSome) : gridGet (gridSet g x y v) x y = some v := by
  unfold gridGet at h ⊢
  unfold gridSet
  cases hrow : pyIdx g y with
  | none => rw [hrow] at h; simp at h
  | some row =>
    rw [hrow] at h
    simp only [Option.some_bind] at h
    show (pyIdx (pySet g y (pySet row x v)) y).bind (fun row => pyIdx row x) = some v
    rw [pyIdx_pySet_self g y (pySet row x v) (by rw [hrow]; rfl)]
    simp only [Option.some_bind]
    exact pyIdx_pySet_self row x v h

/-! ### A specification lemma for `collect` -/

/-- Total volume of an `collected_items` association list. -/
def itemsVolume (l : List (Item × ℕ)) : ℤ :=
  (l.map fun p => (p.2 : ℤ) * p.1.volume).sum

theorem backpack_occupied_eq (s : DiggingSession) :
    backpack_occupied s = itemsVolume s.collected_items := rfl

theorem itemsVolume_bump (l : List (Item × ℕ)) (it : Item) :
    itemsVolume (bumpItem l it) = itemsVolume l + it.volume := by
  induction l with
  | nil => simp [bumpItem, itemsVolume]
  | cons p rest ih =>
    obtain ⟨i, n⟩ := p
    by_cases hi : i = it
    · subst hi
      rw [show bumpItem ((i, n) :: rest) i = (i, n + 1) :: rest by simp [bumpItem]]
      simp only [itemsVolume, List.map_cons, List.sum_cons]
      push_cast
      ring
    · simp only [bumpItem, if_neg hi, itemsVolume, List.map_cons, List.sum_cons] at ih ⊢
      rw [ih]
      ring

/-- What a successful `collect` does to the session: clears the slot, marks
the coordinate explored, and updates the totals according to the slot's
contents; every other field is untouched. -/
theorem collect_spec (s : DiggingSession) (x y : ℤ) (out : CollectOut) (s' : DiggingSession)
    (h : collect s x y = some (out, s')) :
    ∃ cc ci, s' = { s with grid := gridSet s.grid x y none,
                           explored := insert (x, y) s.explored,
                           collected_coins := cc, collected_items := ci } ∧
      ((gridGet s.grid x y = some none ∧ out = CollectOut.nothing ∧
          cc = s.collected_coins ∧ ci = s.collected_items) ∨
       (∃ cell, gridGet s.grid x y = some (some cell) ∧
          cc = s.collected_coins + (if cell.coins ≠ 0 then cell.coins else 0) ∧
          ci = (match cell.item with
                | some it => bumpItem s.collected_items it
                | none => s.collected_items))) := by
  cases hg : gridGet s.grid x y with
  | none => rw [collect, hg] at h; exact absurd h (by simp)
  | some slot =>
    rw [collect, hg] at h
    cases slot with
    | none =>
      simp only [Option.some_inj] at h
      obtain ⟨h1, h2⟩ := Prod.mk.injEq .. ▸ h
      refine ⟨s.collected_coins, s.collected_items, ?_, Or.inl ⟨rfl, h1.symm, rfl, rfl⟩⟩
      exact h2.symm
    | some cell =>
      dsimp only at h
      by_cases hc : cell.coins ≠ 0
      · cases hitem : cell.item with
        | some it =>
          rw [if_pos hc] at h
          simp only [hitem, Option.some_inj] at h
          obtain ⟨h1, h2⟩ := Prod.mk.injEq .. ▸ h
          refine ⟨s.collected_coins + cell.coins, bumpItem s.collected_items it, h2.symm,
            Or.inr ⟨cell, rfl, ?_, ?_⟩⟩
          · rw [if_pos hc]
          · rw [hitem]
        | none =>
          rw [if_pos hc] at h
          simp only [hitem, Option.some_inj] at h
          obtain ⟨h1, h2⟩ := Prod.mk.injEq .. ▸ h
          refine ⟨s.collected_coins + cell.coins, s.collected_items, h2.symm,
            Or.inr ⟨cell, rfl, ?_, ?_⟩⟩
          · rw [if_pos hc]
          · rw [hitem]
      · cases hitem : cell.item with
        | some it =>
          rw [if_neg hc] at h
          simp only [hitem, Option.some_inj] at h
          obtain ⟨h1, h2⟩ := Prod.mk.injEq .. ▸ h
          refine ⟨s.collected_coins, bumpItem s.collected_items it, h2.symm,
            Or.inr ⟨cell, rfl, ?_, ?_⟩⟩
          · rw [if_neg hc]; ring
          · rw [hitem]
        | none =>
          rw [if_neg hc] at h
          simp only [hitem, Option.some_inj] at h
          obtain ⟨h1, h2⟩ := Prod.mk.injEq .. ▸ h
          refine ⟨s.collected_coins, s.collected_items, h2.symm,
            Or.inr ⟨cell, rfl, ?_, ?_⟩⟩
          · rw [if_neg hc]; ring
          · rw [hitem]

/-! ### Claim C9: `collect` on an empty slot / double collect -/

/-- C9: `collect(x, y)` on an already-excavated (`None`) slot returns `None`
and leaves `collected_coins`, `collected_items` and the grid unchanged;
consequently a second `collect` at the same coordinates returns `None` and
leaves the totals and the grid exactly as after the first call. -/
theorem C9_collect_idempotent (s : DiggingSession) (x y : ℤ) :
    (gridGet s.grid x y = some none →
      ∃ s1, collect s x y = some (CollectOut.nothing, s1) ∧
        s1.collected_coins = s.collected_coins ∧
        s1.collected_items = s.collected_items ∧
        s1.grid = s.grid) ∧
    (∀ out1 s1, collect s x y = some (out1, s1) →
      ∃ s2, collect s1 x y = some (CollectOut.nothing, s2) ∧
        s2.collected_coins = s1.collected_coins ∧
        s2.collected_items = s1.collected_items ∧
        s2.grid = s1.grid) := by
  have key : ∀ t : DiggingSession, gridGet t.grid x y = some none →
      ∃ t1, collect t x y = some (CollectOut.nothing, t1) ∧
        t1.collected_coins = t.collected_coins ∧
        t1.collected_items = t.collected_items ∧
        t1.grid = t.grid := by
    intro t h
    refine ⟨({ t with grid := gridSet t.grid x y none,
                      explored := insert (x, y) t.explored } : DiggingSession),
      ?_, rfl, rfl, ?_⟩
    · rw [collect, h]
    · exact gridSet_self_of_none t.grid x y h
  refine ⟨key s, ?_⟩
  intro out1 s1 h1
  obtain ⟨cc, ci, hs1, hcase⟩ := collect_spec s x y out1 s1 h1
  have hsome : (gridGet s.grid x y).isSome := by
    rcases hcase with ⟨hg, -⟩ | ⟨cell, hg, -⟩ <;> rw [hg] <;> rfl
  have hnone : gridGet s1.grid x y = some none := by
    rw [hs1]
    exact gridGet_gridSet_self s.grid x y none hsome
  exact key s1 hnone

/-- Concrete session used by the C9 witness: a one-row grid with an empty
slot at `(0, 0)` and a dirt cell at `(1, 0)`. -/
def c9state : DiggingSession :=
  { biome := Biomes.backyard, posX := 0, posY := 0, target := Target.down,
    grid := [[none, some { coins := 0, item := some Items.dirt, dirt_index := 0, hp := 1 },
              some { coins := 0, item := some Items.dirt, dirt_index := 0, hp := 1 }]],
    explored := ∅, collected_coins := 0, collected_items := [],
    coin_multiplier := 1, hp_multiplier := 1, shovel := none, pickaxe := none,
    stamina := 100, capacity := 100,
    plans := fun _ => { base_dirt_idx := fun _ => 0, spawns := 0, positions := [],
                        spawn_dirt_idx := fun _ => 0, spawn_draw := fun _ => none,
                        coin_roll := fun _ => 0 } }

/-- C9 witness: the two parts instantiated on a concrete 1×2 grid with an
empty slot at `(0, 0)` and a dirt cell at `(1, 0)`. -/
theorem C9_collect_idempotent_witness :
    (∃ s1, collect c9state 0 0 = some (CollectOut.nothing, s1) ∧
      s1.collected_coins = c9state.collected_coins ∧
      s1.collected_items = c9state.collected_items ∧
      s1.grid = c9state.grid) ∧
    (∃ s2 out1 s1, collect c9state 1 0 = some (out1, s1) ∧
      collect s1 1 0 = some (CollectOut.nothing, s2) ∧
      s2.collected_coins = s1.collected_coins ∧
      s2.collected_items = s1.collected_items ∧
      s2.grid = s1.grid) := by
  constructor
  · exact (C9_collect_idempotent c9state 0 0).1 (by decide)
  · match h : collect c9state 1 0 with
    | some (out1, s1) =>
      obtain ⟨s2, h2, hc, hi, hg⟩ := (C9_collect_idempotent c9state 1 0).2 out1 s1 h
      exact ⟨s2, out1, s1, rfl, h2, hc, hi, hg⟩
    | none =>
      have hs : (collect c9state 1 0).isSome = true := by decide
      rw [h] at hs
      exact absurd hs (by decide)

/-! ### Field-preservation lemmas for `collect`, `collect_target`, `move` -/

theorem collect_fields (s : DiggingSession) (x y : ℤ) (out : CollectOut) (s' : DiggingSession)
    (h : collect s x y = some (out, s')) :
    s'.target = s.target ∧ s'.posX = s.posX ∧ s'.posY = s.posY ∧
    s'.capacity = s.capacity ∧ s'.stamina = s.stamina ∧ s'.biome = s.biome ∧
    s'.coin_multiplier = s.coin_multiplier ∧ s'.hp_multiplier = s.hp_multiplier ∧
    s'.shovel = s.shovel ∧ s'.pickaxe = s.pickaxe ∧ s'.plans = s.plans ∧
    s'.grid.length = s.grid.length := by
  obtain ⟨cc, ci, hs', -⟩ := collect_spec s x y out s' h
  subst hs'
  refine ⟨rfl, rfl, rfl, rfl, rfl, rfl, rfl, rfl, rfl, rfl, rfl, ?_⟩
  exact length_gridSet ..

theorem collect_occupied (s : DiggingSession) (x y : ℤ) (out : CollectOut)
    (s' : DiggingSession) (h : collect s x y = some (out, s')) :
    backpack_occupied s' = backpack_occupied s ∨
    ∃ cell it, gridGet s.grid x y = some (some cell) ∧ cell.item = some it ∧
      backpack_occupied s' = backpack_occupied s + it.volume := by
  obtain ⟨cc, ci, hs', hcase⟩ := collect_spec s x y out s' h
  rcases hcase with ⟨-, -, -, hci⟩ | ⟨cell, hg, -, hci⟩
  · left
    rw [backpack_occupied_eq, backpack_occupied_eq, hs']
    simp only
    rw [hci]
  · cases hitem : cell.item with
    | none =>
      left
      rw [backpack_occupied_eq, backpack_occupied_eq, hs']
      simp only
      rw [hci, hitem]
    | some it =>
      right
      refine ⟨cell, it, hg, hitem, ?_⟩
      rw [backpack_occupied_eq, backpack_occupied_eq, hs']
      simp only
      rw [hci, hitem]
      exact itemsVolume_bump ..

theorem collect_target_spec (s : DiggingSession) (out : CollectOut) (s' : DiggingSession)
    (h : collect_target s = some (out, s')) :
    (s' = s ∧ out = CollectOut.nothing ∧
      ((target_xy s).2 < 0 ∨ (target_xy s).1 < 0 ∨ (GRID_WIDTH : ℤ) ≤ (target_xy s).1)) ∨
    (¬ ((target_xy s).2 < 0 ∨ (target_xy s).1 < 0 ∨ (GRID_WIDTH : ℤ) ≤ (target_xy s).1) ∧
      collect s (target_xy s).1 (target_xy s).2 = some (out, s')) := by
  unfold collect_target at h
  by_cases hc : (target_xy s).2 < 0 ∨ (target_xy s).1 < 0 ∨ (GRID_WIDTH : ℤ) ≤ (target_xy s).1
  · rw [if_pos hc] at h
    simp only [Option.some_inj] at h
    obtain ⟨h1, h2⟩ := Prod.mk.injEq .. ▸ h
    exact Or.inl ⟨h2.symm, h1.symm, hc⟩
  · rw [if_neg hc] at h
    exact Or.inr ⟨hc, h⟩

theorem collect_target_fields (s : DiggingSession) (out : CollectOut) (s' : DiggingSession)
    (h : collect_target s = some (out, s')) :
    s'.target = s.target ∧ s'.posX = s.posX ∧ s'.posY = s.posY ∧
    s'.capacity = s.capacity ∧ s'.stamina = s.stamina ∧ s'.biome = s.biome ∧
    s'.coin_multiplier = s.coin_multiplier ∧ s'.hp_multiplier = s.hp_multiplier ∧
    s'.shovel = s.shovel ∧ s'.pickaxe = s.pickaxe ∧ s'.plans = s.plans ∧
    s'.grid.length = s.grid.length := by
  rcases collect_target_spec s out s' h with ⟨hs', -, -⟩ | ⟨-, hcol⟩
  · subst hs'
    exact ⟨rfl, rfl, rfl, rfl, rfl, rfl, rfl, rfl, rfl, rfl, rfl, rfl⟩
  · exact collect_fields _ _ _ _ _ hcol

theorem collect_target_occupied (s : DiggingSession) (out : CollectOut) (s' : DiggingSession)
    (h : collect_target s = some (out, s')) :
    backpack_occupied s' = backpack_occupied s ∨
    ∃ cell it, target_cell s = some (some cell) ∧ cell.item = some it ∧
      backpack_occupied s' = backpack_occupied s + it.volume := by
  rcases collect_target_spec s out s' h with ⟨hs', -, -⟩ | ⟨-, hcol⟩
  · subst hs'
    exact Or.inl rfl
  · exact collect_occupied _ _ _ _ _ hcol

/-- Splitting a successful `move` into its collect phase, row-append phase
and position update. -/
theorem move_cases (s : DiggingSession) (out : CollectOut) (s' : DiggingSession)
    (h : move s = some (out, s')) :
    ∃ s1 s2,
      ((0 ≤ (target_xy s).2 ∧ collect_target s = some (out, s1)) ∨
       (¬ 0 ≤ (target_xy s).2 ∧ out = CollectOut.nothing ∧ s1 = s)) ∧
      ((s1.target = Target.down ∧ ∃ row,
          generate_row s1.biome s1.coin_multiplier (s1.plans s1.grid.length)
            (s1.grid.length : ℤ) = some row ∧
          s2 = cleanup_explored { s1 with grid := s1.grid ++ [row] }) ∨
       (s1.target ≠ Target.down ∧ s2 = s1)) ∧
      s' = { s2 with posX := (target_xy s).1, posY := (target_xy s).2 } := by
  unfold move at h
  by_cases hy : 0 ≤ (target_xy s).2
  · rw [if_pos hy] at h
    cases hct : collect_target s with
    | none => rw [hct] at h; exact absurd h (by simp)
    | some os1 =>
      obtain ⟨out1, s1⟩ := os1
      rw [hct] at h
      dsimp only at h
      refine ⟨s1, ?_⟩
      by_cases ht : s1.target = Target.down
      · rw [if_pos ht] at h
        cases hrow : generate_row s1.biome s1.coin_multiplier (s1.plans s1.grid.length)
            (s1.grid.length : ℤ) with
        | none => rw [hrow] at h; exact absurd h (by simp)
        | some row =>
          rw [hrow] at h
          simp only [Option.some_inj] at h
          obtain ⟨h1, h2⟩ := Prod.mk.injEq .. ▸ h
          subst h1
          exact ⟨_, Or.inl ⟨hy, rfl⟩, Or.inl ⟨ht, row, rfl, rfl⟩, h2.symm⟩
      · rw [if_neg ht] at h
        simp only [Option.some_inj] at h
        obtain ⟨h1, h2⟩ := Prod.mk.injEq .. ▸ h
        subst h1
        exact ⟨_, Or.inl ⟨hy, rfl⟩, Or.inr ⟨ht, rfl⟩, h2.symm⟩
  · rw [if_neg hy] at h
    dsimp only at h
    refine ⟨s, ?_⟩
    by_cases ht : s.target = Target.down
    · rw [if_pos ht] at h
      cases hrow : generate_row s.biome s.coin_multiplier (s.plans s.grid.length)
          (s.grid.length : ℤ) with
      | none => rw [hrow] at h; exact absurd h (by simp)
      | some row =>
        rw [hrow] at h
        simp only [Option.some_inj] at h
        obtain ⟨h1, h2⟩ := Prod.mk.injEq .. ▸ h
        subst h1
        exact ⟨_, Or.inr ⟨hy, rfl, rfl⟩, Or.inl ⟨ht, row, rfl, rfl⟩, h2.symm⟩
    · rw [if_neg ht] at h
      simp only [Option.some_inj] at h
      obtain ⟨h1, h2⟩ := Prod.mk.injEq .. ▸ h
      subst h1
      exact ⟨_, Or.inr ⟨hy, rfl, rfl⟩, Or.inr ⟨ht, rfl⟩, h2.symm⟩

theorem move_fields (s : DiggingSession) (out : CollectOut) (s' : DiggingSession)
    (h : move s = some (out, s')) :
    s'.posX = (target_xy s).1 ∧ s'.posY = (target_xy s).2 ∧ s'.target = s.target ∧
    s'.capacity = s.capacity ∧ s'.stamina = s.stamina ∧ s'.biome = s.biome ∧
    s'.coin_multiplier = s.coin_multiplier ∧ s'.hp_multiplier = s.hp_multiplier ∧
    s'.shovel = s.shovel ∧ s'.pickaxe = s.pickaxe ∧ s'.plans = s.plans ∧
    (s.target = Target.down → s'.grid.length = s.grid.length + 1) ∧
    (s.target ≠ Target.down → s'.grid.length = s.grid.length) := by
  obtain ⟨s1, s2, hcoll, happ, hs'⟩ := move_cases s out s' h
  have hf1 : s1.target = s.target ∧ s1.capacity = s.capacity ∧ s1.stamina = s.stamina ∧
      s1.biome = s.biome ∧ s1.coin_multiplier = s.coin_multiplier ∧
      s1.hp_multiplier = s.hp_multiplier ∧ s1.shovel = s.shovel ∧ s1.pickaxe = s.pickaxe ∧
      s1.plans = s.plans ∧ s1.grid.length = s.grid.length := by
    rcases hcoll with ⟨-, hct⟩ | ⟨-, -, hs1⟩
    · obtain ⟨a, b, c, d, e, f, g, hh, i, j, k, l⟩ := collect_target_fields s out s1 hct
      exact ⟨a, d, e, f, g, hh, i, j, k, l⟩
    · subst hs1
      exact ⟨rfl, rfl, rfl, rfl, rfl, rfl, rfl, rfl, rfl, rfl⟩
  obtain ⟨hf1t, hf1c, hf1s, hf1b, hf1cm, hf1hm, hf1sh, hf1pk, hf1pl, hf1len⟩ := hf1
  have hf2 : s2.target = s1.target ∧ s2.capacity = s1.capacity ∧ s2.stamina = s1.stamina ∧
      s2.biome = s1.biome ∧ s2.coin_multiplier = s1.coin_multiplier ∧
      s2.hp_multiplier = s1.hp_multiplier ∧ s2.shovel = s1.shovel ∧ s2.pickaxe = s1.pickaxe ∧
      s2.plans = s1.plans ∧
      (s1.target = Target.down → s2.grid.length = s1.grid.length + 1) ∧
      (s1.target ≠ Target.down → s2.grid.length = s1.grid.length) := by
    rcases happ with ⟨ht, row, hrow, hs2⟩ | ⟨ht, hs2⟩
    · subst hs2
      refine ⟨rfl, rfl, rfl, rfl, rfl, rfl, rfl, rfl, rfl, fun _ => ?_, fun hne => absurd ht hne⟩
      simp [cleanup_explored]
    · subst hs2
      exact ⟨rfl, rfl, rfl, rfl, rfl, rfl, rfl, rfl, rfl,
        fun hd => absurd hd ht, fun _ => rfl⟩
  obtain ⟨hf2t, hf2c, hf2s, hf2b, hf2cm, hf2hm, hf2sh, hf2pk, hf2pl, hf2down, hf2not⟩ := hf2
  subst hs'
  refine ⟨rfl, rfl, ?_, ?_, ?_, ?_, ?_, ?_, ?_, ?_, ?_, ?_, ?_⟩ <;>
    simp only [hf2t, hf2c, hf2s, hf2b, hf2cm, hf2hm, hf2sh, hf2pk, hf2pl,
      hf1t, hf1c, hf1s, hf1b, hf1cm, hf1hm, hf1sh, hf1pk, hf1pl]
  · intro hd
    rw [hf2down (by rw [hf1t]; exact hd), hf1len]
  · intro hd
    rw [hf2not (by rw [hf1t]; exact hd), hf1len]

theorem move_occupied (s : DiggingSession) (out : CollectOut) (s' : DiggingSession)
    (h : move s = some (out, s')) :
    backpack_occupied s' = backpack_occupied s ∨
    ∃ cell it, target_cell s = some (some cell) ∧ cell.item = some it ∧
      backpack_occupied s' = backpack_occupied s + it.volume := by
  obtain ⟨s1, s2, hcoll, happ, hs'⟩ := move_cases s out s' h
  have h2 : backpack_occupied s' = backpack_occupied s2 := by
    subst hs'
    rfl
  have h1 : backpack_occupied s2 = backpack_occupied s1 := by
    rcases happ with ⟨-, row, -, hs2⟩ | ⟨-, hs2⟩ <;> subst hs2 <;> rfl
  rcases hcoll with ⟨-, hct⟩ | ⟨-, -, hs1⟩
  · rcases collect_target_occupied s out s1 hct with heq | ⟨cell, it, hg, hit, hocc⟩
    · left
      rw [h2, h1, heq]
    · right
      refine ⟨cell, it, hg, hit, ?_⟩
      rw [h2, h1, hocc]
  · subst hs1
    left
    rw [h2, h1]

/-! ### Claim C6: `move` postcondition -/

/-- C6: after a successful `move()`, the position equals the `target_xy`
that was current at the call, and a downward move appends exactly one row
to the grid. -/
theorem C6_move (s : DiggingSession) (out : CollectOut) (s' : DiggingSession)
    (h : move s = some (out, s')) :
    (s'.posX, s'.posY) = target_xy s ∧
    (s.target = Target.down → s'.grid.length = s.grid.length + 1) := by
  obtain ⟨hx, hy, -, -, -, -, -, -, -, -, -, hdown, -⟩ := move_fields s out s' h
  exact ⟨by rw [hx, hy], hdown⟩

/-- Concrete session for the C6 witness: at the surface above a 5-row
all-dirt grid, targeting down. -/
def c6state : DiggingSession :=
  { biome := Biomes.backyard, posX := 4, posY := -1, target := Target.down,
    grid := List.replicate 5 (List.replicate 9 (some
      { coins := 0, item := some Items.dirt, dirt_index := 0, hp := 1 })),
    explored := ∅, collected_coins := 0, collected_items := [],
    coin_multiplier := 1, hp_multiplier := 1, shovel := none, pickaxe := none,
    stamina := 100, capacity := 100,
    plans := fun _ => { base_dirt_idx := fun _ => 0, spawns := 0, positions := [],
                        spawn_dirt_idx := fun _ => 0, spawn_draw := fun _ => none,
                        coin_roll := fun _ => 0 } }

/-- C6 witness: a concrete downward `move` lands on the target square and
grows the grid from 5 to 6 rows. -/
theorem C6_move_witness :
    ∃ out s', move c6state = some (out, s') ∧ (s'.posX, s'.posY) = target_xy c6state ∧
      s'.grid.length = c6state.grid.length + 1 :=
  match h : move c6state with
  | some (out, s') =>
    ⟨out, s', rfl, (C6_move c6state out s' h).1, (C6_move c6state out s' h).2 rfl⟩
  | none => by
    have hs : (move c6state).isSome = true := by decide
    rw [h] at hs
    exact absurd hs (by decide)

/-! ### Claim C3: the backpack-capacity invariant -/

/-- The invariant: occupied backpack volume never exceeds capacity. -/
def CapacityInv (s : DiggingSession) : Prop :=
  backpack_occupied s ≤ s.capacity

theorem move_while_empty_inv (fuel : ℕ) :
    ∀ s s', CapacityInv s → move_while_empty fuel s = some s' → CapacityInv s' := by
  induction fuel with
  | zero => intro s s' _ h; simp [move_while_empty] at h
  | succ n ih =>
    intro s s' hinv h
    rw [move_while_empty] at h
    cases htc : target_cell s with
    | none => rw [htc] at h; simp at h
    | some slot =>
      cases slot with
      | some c =>
        rw [htc] at h
        simp only [Option.some_inj] at h
        subst h
        exact hinv
      | none =>
        rw [htc] at h
        cases hm : move s with
        | none => rw [hm] at h; simp at h
        | some os1 =>
          obtain ⟨o, s1⟩ := os1
          rw [hm] at h
          refine ih s1 s' ?_ h
          have hcap := (move_fields s o s1 hm).2.2.2.1
          rcases move_occupied s o s1 hm with heq | ⟨cell, it, hg, -, -⟩
          · unfold CapacityInv
            rw [heq, hcap]
            exact hinv
          · rw [htc] at hg
            simp at hg

theorem cascading_loop_inv (fuel : ℕ) :
    ∀ remaining ac ai s res, CapacityInv s →
      cascading_loop fuel remaining ac ai s = some res → CapacityInv res.2.2 := by
  induction fuel with
  | zero => intro remaining ac ai s res _ h; simp [cascading_loop] at h
  | succ n ih =>
    intro remaining ac ai s res hinv h
    rw [cascading_loop] at h
    by_cases hrem : ¬ 0 < remaining
    · rw [if_pos hrem] at h
      simp only [Option.some_inj] at h
      subst h
      exact hinv
    · rw [if_neg hrem] at h
      cases htc : target_cell s with
      | none => rw [htc] at h; simp at h
      | some slot =>
        rw [htc] at h
        cases slot with
        | none =>
          dsimp only at h
          cases hm : move s with
          | none => rw [hm] at h; simp at h
          | some os1 =>
            obtain ⟨o, s1⟩ := os1
            rw [hm] at h
            refine ih _ _ _ s1 res ?_ h
            have hcap := (move_fields s o s1 hm).2.2.2.1
            rcases move_occupied s o s1 hm with heq | ⟨cell, it, hg, -, -⟩
            · unfold CapacityInv
              rw [heq, hcap]
              exact hinv
            · rw [htc] at hg
              simp at hg
        | some cell =>
          dsimp only at h
          by_cases hfall : cell.hp ≤ remaining
          · rw [if_pos hfall] at h
            by_cases hguard : cell.item.any
                (fun it => decide (s.capacity < backpack_occupied s + it.volume)) = true
            · rw [if_pos hguard] at h
              simp only [Option.some_inj] at h
              subst h
              exact hinv
            · rw [if_neg hguard] at h
              cases hm : move s with
              | none => rw [hm] at h; simp at h
              | some os1 =>
                obtain ⟨o, s1⟩ := os1
                rw [hm] at h
                refine ih _ _ _ s1 res ?_ h
                have hcap := (move_fields s o s1 hm).2.2.2.1
                rcases move_occupied s o s1 hm with heq | ⟨cell', it, hg, hit, hocc⟩
                · unfold CapacityInv
                  rw [heq, hcap]
                  exact hinv
                · rw [htc] at hg
                  simp only [Option.some_inj] at hg
                  cases hg
                  unfold CapacityInv
                  rw [hocc, hcap]
                  rw [hit] at hguard
                  simp only [Option.any_some, decide_eq_true_eq] at hguard
                  omega
          · rw [if_neg hfall] at h
            refine ih _ _ _ _ res ?_ h
            exact hinv

/-- A `foldlM` over `Except` preserves any invariant its step preserves. -/
theorem foldlM_except_inv {ε α β : Type} (P : α → Prop) (f : α → β → Except ε α)
    (hf : ∀ a b a', P a → f a b = .ok a' → P a') :
    ∀ (l : List β) (a res : α), P a → l.foldlM f a = .ok res → P res := by
  intro l
  induction l with
  | nil =>
    intro a res hP h
    rw [List.foldlM_nil] at h
    exact (Except.ok.inj h) ▸ hP
  | cons b bs ih =>
    intro a res hP h
    rw [List.foldlM_cons] at h
    cases hfb : f a b with
    | error e =>
      rw [hfb] at h
      exact Except.noConfusion h
    | ok a' =>
      rw [hfb] at h
      exact ih a' res (hf a b a' hP hfb) h

theorem surrounding_cell_step_inv (base_hp radius cx cy : ℤ) (acc : SurrAcc) (x y : ℤ)
    (acc' : SurrAcc) (hinv : CapacityInv acc.s)
    (h : surrounding_cell_step base_hp radius cx cy acc x y = .ok acc') :
    CapacityInv acc'.s := by
  unfold surrounding_cell_step at h
  by_cases hx : x < 0 ∨ (GRID_WIDTH : ℤ) ≤ x
  · rw [if_pos hx] at h
    cases h
    exact hinv
  · rw [if_neg hx] at h
    by_cases hrad : radius ^ 2 < (x - cx) ^ 2 + (y - cy) ^ 2
    · rw [if_pos hrad] at h
      cases h
      exact hinv
    · rw [if_neg hrad] at h
      cases hg : gridGet acc.s.grid x y with
      | none => rw [hg] at h; simp at h
      | some slot =>
        rw [hg] at h
        cases slot with
        | none =>
          dsimp only at h
          cases h
          exact hinv
        | some cell =>
          dsimp only at h
          by_cases hguard : cell.item.any
              (fun it => decide (acc.s.capacity < backpack_occupied acc.s + it.volume)) = true
          · rw [if_pos hguard] at h
            cases h
            exact hinv
          · rw [if_neg hguard] at h
            by_cases hdz : (x - cx) ^ 2 + (y - cy) ^ 2 = 0
            · rw [if_pos hdz] at h
              simp at h
            · rw [if_neg hdz] at h
              by_cases hdead : qsub cell.hp (qdiv (qofInt base_hp)
                  (qofInt ((x - cx) ^ 2 + (y - cy) ^ 2))) ≤ 0
              · rw [if_pos hdead] at h
                set s1 : DiggingSession :=
                  { acc.s with grid := gridSet acc.s.grid x y (some { cell with
                      hp := qsub cell.hp (qdiv (qofInt base_hp)
                        (qofInt ((x - cx) ^ 2 + (y - cy) ^ 2))) }) } with hs1
                cases hcol : collect s1 x y with
                | none => rw [hcol] at h; simp at h
                | some os2 =>
                  obtain ⟨o, s2⟩ := os2
                  rw [hcol] at h
                  dsimp only at h
                  cases h
                  show CapacityInv s2
                  have hcap := (collect_fields s1 x y o s2 hcol).2.2.2.1
                  have hinv1 : backpack_occupied s1 = backpack_occupied acc.s := rfl
                  have hcap1 : s1.capacity = acc.s.capacity := rfl
                  rcases collect_occupied s1 x y o s2 hcol with heq | ⟨cell', it, hg', hit, hocc⟩
                  · unfold CapacityInv
                    rw [heq, hcap, hinv1, hcap1]
                    exact hinv
                  · have hg1 : gridGet s1.grid x y = some (some { cell with
                        hp := qsub cell.hp (qdiv (qofInt base_hp)
                          (qofInt ((x - cx) ^ 2 + (y - cy) ^ 2))) }) := by
                      rw [hs1]
                      exact gridGet_gridSet_self acc.s.grid x y _ (by rw [hg]; rfl)
                    rw [hg1] at hg'
                    simp only [Option.some_inj] at hg'
                    cases hg'
                    unfold CapacityInv
                    rw [hocc, hcap, hinv1, hcap1]
                    simp only at hit
                    rw [hit] at hguard
                    simp only [Option.any_some, decide_eq_true_eq] at hguard
                    omega
              · rw [if_neg hdead] at h
                cases h
                exact hinv

theorem surrounding_loop_inv (base_hp radius : ℤ) (s : DiggingSession) (acc : SurrAcc)
    (hinv : CapacityInv s) (h : surrounding_loop base_hp radius s = .ok acc) :
    CapacityInv acc.s := by
  unfold surrounding_loop at h
  refine foldlM_except_inv (fun a => CapacityInv a.s) _ ?_ _ _ _ hinv h
  intro a y a' hP hstep
  by_cases hyb : y < 0 ∨ (a.s.grid.length : ℤ) ≤ y
  · rw [if_pos hyb] at hstep
    cases hstep
    exact hP
  · rw [if_neg hyb] at hstep
    refine foldlM_except_inv (fun a => CapacityInv a.s) _ ?_ _ _ _ hP hstep
    intro b x b' hPb hstep2
    exact surrounding_cell_step_inv _ _ _ _ _ _ _ _ hPb hstep2

/-- One capacity-respecting power-up action, with its parameters
(`cascading_dig` = railgun, `surrounding_dig` = dynamite). -/
inductive CapOp where
  | casc (fuel : ℕ) (total_hp : ℤ)
  | surr (fuel : ℕ) (base_hp radius : ℤ)

/-- Run one `CapOp` against a session, keeping only the session state. -/
def runOp (s : DiggingSession) : CapOp → Option DiggingSession
  | CapOp.casc fuel total_hp => (cascading_dig fuel total_hp s).map fun r => r.2.2
  | CapOp.surr fuel base_hp radius =>
    (surrounding_dig fuel base_hp radius s).map fun r => r.2.2.2

/-- Run a sequence of `CapOp`s. -/
def runOps : List CapOp → DiggingSession → Option DiggingSession
  | [], s => some s
  | op :: rest, s => (runOp s op).bind (runOps rest)

theorem cascading_dig_inv (fuel : ℕ) (total_hp : ℤ) (s : DiggingSession) (res)
    (hinv : CapacityInv s) (h : cascading_dig fuel total_hp s = some res) :
    CapacityInv res.2.2 := by
  unfold cascading_dig at h
  refine cascading_loop_inv fuel _ _ _ _ res ?_ h
  exact hinv

theorem surrounding_dig_inv (fuel : ℕ) (base_hp radius : ℤ) (s : DiggingSession) (res)
    (hinv : CapacityInv s) (h : surrounding_dig fuel base_hp radius s = some res) :
    CapacityInv res.2.2.2 := by
  unfold surrounding_dig at h
  cases hloop : surrounding_loop base_hp radius s with
  | error e => rw [hloop] at h; simp at h
  | ok acc =>
    rw [hloop] at h
    obtain ⟨s1, hnorm, hfs⟩ := Option.map_eq_some'.mp h
    cases hfs
    have hacc : CapacityInv acc.s := surrounding_loop_inv base_hp radius s acc hinv hloop
    exact move_while_empty_inv fuel _ _ (by exact hacc) hnorm

/-- C3: starting from any state in which the occupied backpack volume is
within capacity, any sequence of (successful) `cascading_dig` /
`surrounding_dig` calls keeps it within capacity. -/
theorem C3_capacity_invariant (ops : List CapOp) :
    ∀ s s', CapacityInv s → runOps ops s = some s' → CapacityInv s' := by
  induction ops with
  | nil =>
    intro s s' hinv h
    rw [runOps] at h
    cases h
    exact hinv
  | cons op rest ih =>
    intro s s' hinv h
    rw [runOps] at h
    cases hop : runOp s op with
    | none => rw [hop] at h; simp at h
    | some s1 =>
      rw [hop] at h
      simp only [Option.some_bind] at h
      refine ih s1 s' ?_ h
      cases op with
      | casc fuel total_hp =>
        rw [show runOp s (CapOp.casc fuel total_hp) =
          (cascading_dig fuel total_hp s).map (fun r => r.2.2) from rfl] at hop
        obtain ⟨res, hc, hfs⟩ := Option.map_eq_some'.mp hop
        cases hfs
        exact cascading_dig_inv fuel total_hp s res hinv hc
      | surr fuel base_hp radius =>
        rw [show runOp s (CapOp.surr fuel base_hp radius) =
          (surrounding_dig fuel base_hp radius s).map (fun r => r.2.2.2) from rfl] at hop
        obtain ⟨res, hc, hfs⟩ := Option.map_eq_some'.mp hop
        cases hfs
        exact surrounding_dig_inv fuel base_hp radius s res hinv hc

/-- Concrete session for the C3 witness: a 6-row grid, empty slot under the
player at `(4, 0)`, rows of dirt below, capacity 10. -/
def c3state : DiggingSession :=
  { biome := Biomes.backyard, posX := 4, posY := 0, target := Target.down,
    grid := (List.replicate 9 (some
        { coins := 0, item := some Items.dirt, dirt_index := 0, hp := (1 : ℚ) })).set 4 none
      :: List.replicate 5 (List.replicate 9 (some
        { coins := 0, item := some Items.dirt, dirt_index := 0, hp := (1 : ℚ) })),
    explored := ∅, collected_coins := 0, collected_items := [],
    coin_multiplier := 1, hp_multiplier := 1, shovel := none, pickaxe := none,
    stamina := 100, capacity := 10,
    plans := fun _ => { base_dirt_idx := fun _ => 0, spawns := 0, positions := [],
                        spawn_dirt_idx := fun _ => 0, spawn_draw := fun _ => none,
                        coin_roll := fun _ => 0 } }

/-- C3 witness: a railgun shot followed by a dynamite blast on a concrete
session stays within the 10-unit backpack capacity. -/
theorem C3_capacity_invariant_witness :
    ∃ s', runOps [CapOp.casc 20 5, CapOp.surr 20 10 2] c3state = some s' ∧ CapacityInv s' :=
  match h : runOps [CapOp.casc 20 5, CapOp.surr 20 10 2] c3state with
  | some s' => ⟨s', rfl,
      C3_capacity_invariant [CapOp.casc 20 5, CapOp.surr 20 10 2] c3state s'
        (show backpack_occupied c3state ≤ c3state.capacity by decide) h⟩
  | none => by
    have hs : (runOps [CapOp.casc 20 5, CapOp.surr 20 10 2] c3state).isSome = true := by decide
    rw [h] at hs
    exact absurd hs (by decide)

/-! ### Claim C10: `surrounding_dig` cannot divide by zero when the player's
slot is empty -/

theorem pyIdx_nonneg {α : Type} (l : List α) (i : ℤ) (h : 0 ≤ i) :
    pyIdx l i = l.get? i.toNat := by
  unfold pyIdx
  rw [if_pos h]

theorem pySet_nonneg {α : Type} (l : List α) (i : ℤ) (a : α) (h : 0 ≤ i) :
    pySet l i a = l.set i.toNat a := by
  unfold pySet
  rw [if_pos h]

theorem gridGet_gridSet_ne (g : Grid) (x y cx cy : ℤ) (v : Option Cell)
    (hx : 0 ≤ x) (hy : 0 ≤ y) (hcx : 0 ≤ cx) (hcy : 0 ≤ cy)
    (hne : ¬ (x = cx ∧ y = cy)) :
    gridGet (gridSet g x y v) cx cy = gridGet g cx cy := by
  cases hrow : pyIdx g y with
  | none =>
    have hsg : gridSet g x y v = g := by
      unfold gridSet
      rw [hrow]
    rw [hsg]
  | some row =>
    have hsg : gridSet g x y v = g.set y.toNat (pySet row x v) := by
      unfold gridSet
      rw [hrow]
      show pySet g y (pySet row x v) = g.set y.toNat (pySet row x v)
      rw [pySet_nonneg g y _ hy]
    rw [hsg]
    unfold gridGet
    by_cases hyy : cy = y
    · subst hyy
      have hxne : x ≠ cx := fun hxx => hne ⟨hxx, rfl⟩
      have hlt : cy.toNat < g.length := by
        rw [pyIdx_nonneg g cy hcy] at hrow
        exact (List.get?_eq_some.mp hrow).1
      rw [pyIdx_nonneg _ cy hcy, pyIdx_nonneg g cy hcy,
        List.get?_set_eq_of_lt _ hlt]
      rw [pyIdx_nonneg g cy hcy] at hrow
      rw [hrow]
      simp only [Option.some_bind]
      rw [pySet_nonneg row x v hx, pyIdx_nonneg _ cx hcx, pyIdx_nonneg row cx hcx]
      exact List.get?_set_ne _ _ (by omega : x.toNat ≠ cx.toNat)
    · have hyne : y ≠ cy := fun hYY => hyy hYY.symm
      rw [pyIdx_nonneg _ cy hcy, pyIdx_nonneg g cy hcy,
        List.get?_set_ne _ _ (by omega : y.toNat ≠ cy.toNat)]

theorem gridGet_append (g ext : Grid) (x y : ℤ) (hy : 0 ≤ y)
    (hrow : (pyIdx g y).isSome) :
    gridGet (g ++ ext) x y = gridGet g x y := by
  have hlt : y.toNat < g.length := by
    rw [pyIdx_nonneg g y hy] at hrow
    obtain ⟨a, ha⟩ := Option.isSome_iff_exists.mp hrow
    exact (List.get?_eq_some.mp ha).1
  unfold gridGet
  rw [pyIdx_nonneg g y hy, pyIdx_nonneg (g ++ ext) y hy, List.get?_append hlt]

/-- A `foldlM` over `Except` never hits a distinguished error if no step
fired from an invariant-satisfying accumulator can produce it. -/
theorem foldlM_except_no_error {ε α β : Type} (P : α → Prop) (z : ε) (f : α → β → Except ε α)
    (hf : ∀ a b, P a → (∀ a', f a b = .ok a' → P a') ∧ f a b ≠ .error z) :
    ∀ (l : List β) (a : α), P a → l.foldlM f a ≠ .error z := by
  intro l
  induction l with
  | nil =>
    intro a hP h
    rw [List.foldlM_nil] at h
    exact Except.noConfusion h
  | cons b bs ih =>
    intro a hP h
    rw [List.foldlM_cons] at h
    cases hfb : f a b with
    | error e =>
      rw [hfb] at h
      have he : (Except.error e : Except ε α) = Except.error z := by
        exact Except.error.inj h ▸ rfl
      exact (hf a b hP).2 (hfb.trans he)
    | ok a' =>
      rw [hfb] at h
      exact ih a' ((hf a b hP).1 a' hfb) h

/-- The per-cell step of the area loop: with the player's slot empty (and the
player at an in-width, in-grid position), it preserves that emptiness and can
never raise `ZeroDivisionError`. -/
theorem surrounding_cell_step_center (base_hp radius cx cy : ℤ) (acc : SurrAcc) (x y : ℤ)
    (hcx : 0 ≤ cx) (hcx9 : cx < GRID_WIDTH) (hcy : 0 ≤ cy) (hy : 0 ≤ y)
    (hP : gridGet acc.s.grid cx cy = some none) :
    (∀ acc', surrounding_cell_step base_hp radius cx cy acc x y = .ok acc' →
      gridGet acc'.s.grid cx cy = some none) ∧
    surrounding_cell_step base_hp radius cx cy acc x y ≠ .error SurrErr.zeroDiv := by
  unfold surrounding_cell_step
  by_cases hxb : x < 0 ∨ (GRID_WIDTH : ℤ) ≤ x
  · rw [if_pos hxb]
    exact ⟨fun acc' h => Except.ok.inj h ▸ hP, fun h => Except.noConfusion h⟩
  · rw [if_neg hxb]
    push_neg at hxb
    by_cases hrad : radius ^ 2 < (x - cx) ^ 2 + (y - cy) ^ 2
    · rw [if_pos hrad]
      exact ⟨fun acc' h => Except.ok.inj h ▸ hP, fun h => Except.noConfusion h⟩
    · rw [if_neg hrad]
      cases hg : gridGet acc.s.grid x y with
      | none =>
        exact ⟨fun acc' h => Except.noConfusion h, fun h => SurrErr.noConfusion (Except.error.inj h)⟩
      | some slot =>
        cases slot with
        | none =>
          exact ⟨fun acc' h => Except.ok.inj h ▸ hP, fun h => Except.noConfusion h⟩
        | some cell =>
          dsimp only
          by_cases hguard : cell.item.any
              (fun it => decide (acc.s.capacity < backpack_occupied acc.s + it.volume)) = true
          · rw [if_pos hguard]
            exact ⟨fun acc' h => Except.ok.inj h ▸ hP, fun h => Except.noConfusion h⟩
          · rw [if_neg hguard]
            by_cases hdz : (x - cx) ^ 2 + (y - cy) ^ 2 = 0
            · exfalso
              have hxcx : x = cx ∧ y = cy := by
                constructor <;> nlinarith [sq_nonneg (x - cx), sq_nonneg (y - cy)]
              obtain ⟨h1, h2⟩ := hxcx
              subst h1; subst h2
              rw [hP] at hg
              exact Option.noConfusion (Option.some.inj hg)
            · rw [if_neg hdz]
              have hne : ¬ (x = cx ∧ y = cy) := by
                intro ⟨h1, h2⟩
                subst h1; subst h2
                simp at hdz
              have hpres : gridGet (gridSet acc.s.grid x y (some { cell with
                  hp := qsub cell.hp (qdiv (qofInt base_hp)
                    (qofInt ((x - cx) ^ 2 + (y - cy) ^ 2))) })) cx cy = some none := by
                rw [gridGet_gridSet_ne acc.s.grid x y cx cy _ hxb.1 hy hcx hcy hne]
                exact hP
              by_cases hdead : qsub cell.hp (qdiv (qofInt base_hp)
                  (qofInt ((x - cx) ^ 2 + (y - cy) ^ 2))) ≤ 0
              · rw [if_pos hdead]
                cases hcol : collect { acc.s with grid := gridSet acc.s.grid x y (some { cell with
                    hp := qsub cell.hp (qdiv (qofInt base_hp)
                      (qofInt ((x - cx) ^ 2 + (y - cy) ^ 2))) }) } x y with
                | none =>
                  exact ⟨fun acc' h => Except.noConfusion h,
                    fun h => SurrErr.noConfusion (Except.error.inj h)⟩
                | some os2 =>
                  obtain ⟨o, s2⟩ := os2
                  dsimp only
                  refine ⟨fun acc' h => ?_, fun h => Except.noConfusion h⟩
                  cases h
                  obtain ⟨cc, ci, hs2, -⟩ := collect_spec _ x y o s2 hcol
                  subst hs2
                  show gridGet (gridSet _ x y none) cx cy = some none
                  rw [gridGet_gridSet_ne _ x y cx cy _ hxb.1 hy hcx hcy hne]
                  exact hpres
              · rw [if_neg hdead]
                refine ⟨fun acc' h => ?_, fun h => Except.noConfusion h⟩
                cases h
                exact hpres

/-- C10: (a) if the grid slot at the player's position is empty — the
situation every reachable in-grid state is in — the area loop of
`surrounding_dig` never raises `ZeroDivisionError`: the only coordinate with
`distance = 0` is the player's own, and its empty-cell check fires before
`base_hp / distance` is evaluated; (b) `move()` onto any in-bounds target
re-establishes that precondition: the slot at the new position is empty. -/
theorem C10_no_div_by_zero (s : DiggingSession) (base_hp radius : ℤ)
    (hcx : 0 ≤ s.posX) (hcx9 : s.posX < GRID_WIDTH) (hcy : 0 ≤ s.posY)
    (hP : gridGet s.grid s.posX s.posY = some none) :
    surrounding_loop base_hp radius s ≠ .error SurrErr.zeroDiv ∧
    (∀ out s', move s = some (out, s') →
      0 ≤ (target_xy s).2 → 0 ≤ (target_xy s).1 → (target_xy s).1 < GRID_WIDTH →
      gridGet s'.grid s'.posX s'.posY = some none) := by
  constructor
  · unfold surrounding_loop
    refine foldlM_except_no_error (fun acc => gridGet acc.s.grid s.posX s.posY = some none)
      SurrErr.zeroDiv _ ?_ _ _ hP
    intro acc y hPacc
    by_cases hyb : y < 0 ∨ (acc.s.grid.length : ℤ) ≤ y
    · rw [if_pos hyb]
      exact ⟨fun acc' h => Except.ok.inj h ▸ hPacc, fun h => Except.noConfusion h⟩
    · rw [if_neg hyb]
      push_neg at hyb
      constructor
      · intro acc' h
        refine foldlM_except_inv (fun a => gridGet a.s.grid s.posX s.posY = some none)
          _ ?_ _ _ _ hPacc h
        intro a x a' hPa hstep
        exact (surrounding_cell_step_center base_hp radius s.posX s.posY a x y
          hcx hcx9 hcy hyb.1 hPa).1 a' hstep
      · refine foldlM_except_no_error (fun a => gridGet a.s.grid s.posX s.posY = some none)
          SurrErr.zeroDiv _ ?_ _ _ hPacc
        intro a x hPa
        exact ⟨(surrounding_cell_step_center base_hp radius s.posX s.posY a x y
            hcx hcx9 hcy hyb.1 hPa).1,
          (surrounding_cell_step_center base_hp radius s.posX s.posY a x y
            hcx hcx9 hcy hyb.1 hPa).2⟩
  · intro out s' hm hy hx hxw
    obtain ⟨s1, s2, hcoll, happ, hs'⟩ := move_cases s out s' hm
    rcases hcoll with ⟨-, hct⟩ | ⟨hyneg, -, -⟩
    · rcases collect_target_spec s out s1 hct with ⟨-, -, habs⟩ | ⟨-, hcol⟩
      · omega
      · obtain ⟨cc, ci, hs1, hdisj⟩ := collect_spec s _ _ out s1 hcol
        have hsome : (gridGet s.grid (target_xy s).1 (target_xy s).2).isSome := by
          rcases hdisj with ⟨hg, -⟩ | ⟨cell, hg, -⟩ <;> rw [hg] <;> rfl
        have hclear : gridGet s1.grid (target_xy s).1 (target_xy s).2 = some none := by
          rw [hs1]
          exact gridGet_gridSet_self s.grid _ _ none hsome
        have hrowsome : (pyIdx s1.grid (target_xy s).2).isSome := by
          unfold gridGet at hclear
          cases hr : pyIdx s1.grid (target_xy s).2 with
          | none => rw [hr] at hclear; simp at hclear
          | some row => rfl
        have hgrid2 : gridGet s2.grid (target_xy s).1 (target_xy s).2 = some none := by
          rcases happ with ⟨-, row, -, hs2⟩ | ⟨-, hs2⟩
          · subst hs2
            show gridGet (s1.grid ++ [row]) (target_xy s).1 (target_xy s).2 = some none
            rw [gridGet_append s1.grid [row] _ _ hy hrowsome]
            exact hclear
          · subst hs2
            exact hclear
        subst hs'
        exact hgrid2
    · omega

/-- C10 witness: the loop on the concrete C2-style state (empty slot under
the player) really returns `.ok`, and a concrete in-bounds `move` lands on
an empty slot. -/
theorem C10_no_div_by_zero_witness :
    surrounding_loop 10 2 c3state ≠ .error SurrErr.zeroDiv ∧
    (∃ out s', move c3state = some (out, s') ∧
      gridGet s'.grid s'.posX s'.posY = some none) := by
  constructor
  · exact (C10_no_div_by_zero c3state 10 2 (by decide) (by decide) (by decide) (by decide)).1
  · match h : move c3state with
    | some (out, s') =>
      exact ⟨out, s', rfl,
        (C10_no_div_by_zero c3state 10 2 (by decide) (by decide) (by decide) (by decide)).2
          out s' h (by decide) (by decide) (by decide)⟩
    | none =>
      have hs : (move c3state).isSome = true := by decide
      rw [h] at hs
      exact absurd hs (by decide)

/-! ### Claim C4: `dig` -/

theorem move_while_empty_stamina (fuel : ℕ) :
    ∀ s s', move_while_empty fuel s = some s' → s'.stamina = s.stamina := by
  induction fuel with
  | zero => intro s s' h; simp [move_while_empty] at h
  | succ n ih =>
    intro s s' h
    rw [move_while_empty] at h
    cases htc : target_cell s with
    | none => rw [htc] at h; simp at h
    | some slot =>
      cases slot with
      | some c =>
        rw [htc] at h
        simp only [Option.some_inj] at h
        subst h
        rfl
      | none =>
        rw [htc] at h
        cases hm : move s with
        | none => rw [hm] at h; simp at h
        | some os1 =>
          obtain ⟨o, s1⟩ := os1
          rw [hm] at h
          rw [ih s1 s' h, (move_fields s o s1 hm).2.2.2.2.1]

/-- Concrete session for the C4 scenario: player at the surface `(4, -1)`,
target `down`, five all-dirt rows of `hp = 1`, bare hands
(no shovel, no pickaxe), `hp_multiplier = 1`. -/
def c4state : DiggingSession :=
  { biome := Biomes.backyard, posX := 4, posY := -1, target := Target.down,
    grid := List.replicate 5 (List.replicate 9 (some
      { coins := 0, item := some Items.dirt, dirt_index := 0, hp := 1 })),
    explored := ∅, collected_coins := 0, collected_items := [],
    coin_multiplier := 1, hp_multiplier := 1, shovel := none, pickaxe := none,
    stamina := 100, capacity := 100,
    plans := fun _ => { base_dirt_idx := fun _ => 0, spawns := 0, positions := [],
                        spawn_dirt_idx := fun _ => 0, spawn_draw := fun _ => none,
                        coin_roll := fun _ => 0 } }

/-- C4: (general part) `dig()` selects the pickaxe when the target cell
holds an ore-type item and the shovel otherwise, falls back to bare hands of
strength 1 when the selected tool is missing, deals
`hp_dealt = min(strength * hp_multiplier, cell.hp)` and decrements stamina by
exactly 1; (scenario part) a bare-handed strength-1 dig from `(4, -1)` with
target `down` over an all-dirt `hp = 1` row deals 1 HP, falls via `move()`,
and ends at `(4, 0)` with the row-0 cell at column 4 cleared, stamina
decremented from 100 to 99 and the grid grown to 6 rows. -/
theorem C4_dig (fuel : ℕ) (s : DiggingSession) (cell : Cell)
    (hcell : target_cell s = some (some cell)) :
    (∀ hp_dealt s', dig fuel s = some (hp_dealt, s') →
      hp_dealt = min ((((if cell.item.any (fun it => it.type == ItemType.ore)
          then s.pickaxe else s.shovel).getD 1 : ℤ) : ℚ) * s.hp_multiplier) cell.hp ∧
      s'.stamina = s.stamina - 1) ∧
    ((dig 10 c4state).map (fun r => (r.1, r.2.posX, r.2.posY)) = some (1, 4, 0) ∧
     (dig 10 c4state).map (fun r => gridGet r.2.grid 4 0) = some (some none) ∧
     (dig 10 c4state).map (fun r => (r.2.stamina, r.2.grid.length)) = some (99, 6)) := by
  constructor
  · intro hp_dealt s' h
    rw [dig, hcell] at h
    dsimp only at h
    rw [show (min (qmul (qofInt ((if cell.item.any (fun it => it.type == ItemType.ore)
        then s.pickaxe else s.shovel).getD 1)) s.hp_multiplier) cell.hp)
      = min ((((if cell.item.any (fun it => it.type == ItemType.ore)
        then s.pickaxe else s.shovel).getD 1 : ℤ) : ℚ) * s.hp_multiplier) cell.hp by
        rw [qmul_eq, qofInt_eq]] at h
    set dmg := min ((((if cell.item.any (fun it => it.type == ItemType.ore)
        then s.pickaxe else s.shovel).getD 1 : ℤ) : ℚ) * s.hp_multiplier) cell.hp with hdmg
    set s1 : DiggingSession :=
      { s with grid := gridSet s.grid (target_xy s).1 (target_xy s).2
                 (some { cell with hp := qsub cell.hp dmg })
               stamina := s.stamina - 1 } with hs1
    cases hc2 : target_cell s1 with
    | none => rw [hc2] at h; simp at h
    | some slot2 =>
      rw [hc2] at h
      cases slot2 with
      | none => simp at h
      | some cell2 =>
        dsimp only at h
        by_cases hdead : cell2.hp ≤ 0
        · rw [if_pos hdead] at h
          by_cases hdown : s1.target = Target.down
          · rw [if_pos hdown] at h
            cases hm : move s1 with
            | none => rw [hm] at h; simp at h
            | some os2 =>
              obtain ⟨o, s2⟩ := os2
              rw [hm] at h
              dsimp only at h
              cases hn : move_while_empty fuel s2 with
              | none => rw [hn] at h; simp at h
              | some s3 =>
                rw [hn] at h
                simp only [Option.some_inj] at h
                obtain ⟨h1, h2⟩ := Prod.mk.injEq .. ▸ h
                subst h1
                refine ⟨rfl, ?_⟩
                rw [← h2]
                rw [move_while_empty_stamina fuel s2 s3 hn,
                  (move_fields s1 o s2 hm).2.2.2.2.1]
          · rw [if_neg hdown] at h
            cases hct : collect_target s1 with
            | none => rw [hct] at h; simp at h
            | some os2 =>
              obtain ⟨o, s2⟩ := os2
              rw [hct] at h
              dsimp only at h
              simp only [Option.some_inj] at h
              obtain ⟨h1, h2⟩ := Prod.mk.injEq .. ▸ h
              subst h1
              refine ⟨rfl, ?_⟩
              rw [← h2, (collect_target_fields s1 o s2 hct).2.2.2.2.1]
        · rw [if_neg hdead] at h
          simp only [Option.some_inj] at h
          obtain ⟨h1, h2⟩ := Prod.mk.injEq .. ▸ h
          subst h1
          exact ⟨rfl, by rw [← h2]⟩
  · refine ⟨by decide, by decide, by decide⟩

/-- C4 witness: the general part applied to the concrete scenario state. -/
theorem C4_dig_witness :
    ∃ hp_dealt s', dig 10 c4state = some (hp_dealt, s') ∧
      hp_dealt = min ((((if (some Items.dirt).any (fun it => it.type == ItemType.ore)
        then c4state.pickaxe else c4state.shovel).getD 1 : ℤ) : ℚ) * c4state.hp_multiplier)
        (1 : ℚ) ∧
      s'.stamina = c4state.stamina - 1 :=
  match h : dig 10 c4state with
  | some (hp_dealt, s') =>
    ⟨hp_dealt, s', rfl, by
      have := ((C4_dig 10 c4state
        { coins := 0, item := some Items.dirt, dirt_index := 0, hp := 1 }
        (by decide)).1 hp_dealt s' h)
      exact ⟨this.1, this.2⟩⟩
  | none => by
    have hs : (dig 10 c4state).isSome = true := by decide
    rw [h] at hs
    exact absurd hs (by decide)

/-! ### Claim C2: `surrounding_dig(10, radius=2)` scenario -/

/-- The C2 scenario state: player at `(4, 0)` (their own slot excavated, as
in every reachable in-grid state), all other cells dirt with `hp = 1`,
6-row grid, ample capacity. -/
def c2state : DiggingSession :=
  { biome := Biomes.backyard, posX := 4, posY := 0, target := Target.down,
    grid := (List.replicate 9 (some
        { coins := 0, item := some Items.dirt, dirt_index := 0, hp := (1 : ℚ) })).set 4 none
      :: List.replicate 5 (List.replicate 9 (some
        { coins := 0, item := some Items.dirt, dirt_index := 0, hp := (1 : ℚ) })),
    explored := ∅, collected_coins := 0, collected_items := [],
    coin_multiplier := 1, hp_multiplier := 1, shovel := none, pickaxe := none,
    stamina := 100, capacity := 100,
    plans := fun _ => { base_dirt_idx := fun _ => 0, spawns := 0, positions := [],
                        spawn_dirt_idx := fun _ => 0, spawn_draw := fun _ => none,
                        coin_roll := fun _ => 0 } }

/-- Sum of the original `hp` of the cells of `c2state` within squared
distance 1..4 of the player. -/
def c2AffectedSum : ℚ :=
  (intRange 0 6).foldl (fun acc y =>
    (intRange 0 9).foldl (fun acc x =>
      if 1 ≤ (x - 4) ^ 2 + (y - 0) ^ 2 ∧ (x - 4) ^ 2 + (y - 0) ^ 2 ≤ 4 then
        match gridGet c2state.grid x y with
        | some (some cell) => qadd acc cell.hp
        | _ => acc
      else acc) acc) 0

/-- C2: `surrounding_dig(base_hp=10, radius=2)` at `(4, 0)` on the all-dirt
`hp = 1` grid deals lethal damage to every in-bounds cell at squared
distance 1..4 (each such slot becomes `None`), and the returned `total_hp`
is `8`, the sum of the original hp of the affected cells; 8 dirt items and
no coins are collected. -/
theorem C2_surrounding_dig_scenario :
    (surrounding_dig 10 10 2 c2state).map (fun r => (r.1, r.2.1, r.2.2.1)) =
      some (8, 0, [(Items.dirt, 8)]) ∧
    c2AffectedSum = 8 ∧
    (∀ y ∈ intRange 0 6, ∀ x ∈ intRange 0 9,
      1 ≤ (x - 4) ^ 2 + (y - 0) ^ 2 → (x - 4) ^ 2 + (y - 0) ^ 2 ≤ 4 →
      (surrounding_dig 10 10 2 c2state).map (fun r => gridGet r.2.2.2.grid x y) =
        some (some none)) := by
  refine ⟨by decide, by decide, by decide⟩

/-! ### Claim C5: `cascading_dig(5)` scenario -/

/-- The C5 scenario state: player at `(4, 0)` over a column of `hp = 2`
dirt cells, ample capacity. -/
def c5state : DiggingSession :=
  { biome := Biomes.backyard, posX := 4, posY := 0, target := Target.down,
    grid := (List.replicate 9 (some
        { coins := 0, item := some Items.dirt, dirt_index := 0, hp := (1 : ℚ) })).set 4 none
      :: List.replicate 5 (List.replicate 9 (some
        { coins := 0, item := some Items.dirt, dirt_index := 0, hp := (2 : ℚ) })),
    explored := ∅, collected_coins := 0, collected_items := [],
    coin_multiplier := 1, hp_multiplier := 1, shovel := none, pickaxe := none,
    stamina := 100, capacity := 100,
    plans := fun _ => { base_dirt_idx := fun _ => 0, spawns := 0, positions := [],
                        spawn_dirt_idx := fun _ => 0, spawn_draw := fun _ => none,
                        coin_roll := fun _ => 0 } }

/-- C5: `cascading_dig(total_hp=5)` against a column of `hp = 2` cells
(with sufficient backpack capacity) collects exactly the first two cells
below the player (4 of the 5 HP spent), leaves the third cell partially
damaged at `hp = 1`, and the player ends at depth 2 — on top of, not
through, the third cell. -/
theorem C5_cascading_dig_scenario :
    (cascading_dig 10 5 c5state).map (fun r => (r.1, r.2.1)) =
      some (0, [(Items.dirt, 2)]) ∧
    (cascading_dig 10 5 c5state).map (fun r => (r.2.2.posX, r.2.2.posY)) = some (4, 2) ∧
    (cascading_dig 10 5 c5state).map (fun r => gridGet r.2.2.grid 4 1) = some (some none) ∧
    (cascading_dig 10 5 c5state).map (fun r => gridGet r.2.2.grid 4 2) = some (some none) ∧
    (cascading_dig 10 5 c5state).map
        (fun r => (gridGet r.2.2.grid 4 3).map (fun slot => slot.map Cell.hp)) =
      some (some (some 1)) := by
  refine ⟨by decide, by decide, by decide, by decide, by decide⟩

/-! ### Claim C7: `generate_row` -/

theorem pyRound_nonneg (q : ℚ) (h : 0 ≤ q) : 0 ≤ pyRound q := by
  have hf : 0 ≤ qfloor q := by
    unfold qfloor
    apply Int.fdiv_nonneg
    · exact Rat.num_nonneg.mpr h
    · exact Int.natCast_nonneg q.den
  unfold pyRound
  dsimp only
  split
  · exact hf
  · split
    · omega
    · split
      · exact hf
      · omega

theorem mem_of_mem_set {α : Type} :
    ∀ (l : List α) (n : ℕ) (a c : α), c ∈ l.set n a → c ∈ l ∨ c = a := by
  intro l
  induction l with
  | nil => intro n a c h; simp at h
  | cons x xs ih =>
    intro n a c h
    cases n with
    | zero =>
      rw [List.set_cons_zero] at h
      rcases List.mem_cons.mp h with h1 | h1
      · exact Or.inr h1
      · exact Or.inl (List.mem_cons_of_mem _ h1)
    | succ m =>
      rw [List.set_cons_succ] at h
      rcases List.mem_cons.mp h with h1 | h1
      · exact Or.inl (h1 ▸ List.mem_cons_self _ _)
      · rcases ih m a c h1 with h2 | h2
        · exact Or.inl (List.mem_cons_of_mem _ h2)
        · exact Or.inr h2

theorem foldl_length_invariant {β : Type} (f : List (Option Cell) → β → List (Option Cell))
    (hf : ∀ r b, (f r b).length = r.length) :
    ∀ (l : List β) (r : List (Option Cell)), (l.foldl f r).length = r.length := by
  intro l
  induction l with
  | nil => intro r; rfl
  | cons b bs ih => intro r; rw [List.foldl_cons, ih (f r b), hf r b]

theorem foldl_forall_invariant {β : Type} (P : Option Cell → Prop)
    (f : List (Option Cell) → β → List (Option Cell))
    (hf : ∀ r b, (∀ c ∈ r, P c) → ∀ c ∈ f r b, P c) :
    ∀ (l : List β) (r : List (Option Cell)), (∀ c ∈ r, P c) → ∀ c ∈ l.foldl f r, P c := by
  intro l
  induction l with
  | nil => intro r h; exact h
  | cons b bs ih => intro r h; exact ih (f r b) (hf r b h)

/-- C7 (corrected: restricted to `y ≥ 0`, the only values the program ever
generates rows for): a generated row has exactly `GRID_WIDTH` slots, every
cell has `hp ≥ 0` and `coins ≥ 0`, and a cell with positive coins holds no
item; for `y = 0` the row is all plain dirt (no spawns, no coins). -/
theorem C7_generate_row (biome : Biome) (cm : ℚ) (hcm : 0 ≤ cm) (plan : RowPlan) (y : ℤ)
    (hy : 0 ≤ y) (layer : Layer) (hlayer : biome.get_layer y = some layer)
    (hlaw : plan.Lawful layer y)
    (hdirt : 0 ≤ layer.dirt.hp)
    (hitems : ∀ oit ∈ layer.items.map Prod.fst, 0 ≤ ((oit.map Item.hp).getD 0))
    (row : List (Option Cell)) (hrow : generate_row biome cm plan y = some row) :
    row.length = GRID_WIDTH ∧
    (∀ c ∈ row, ∃ cell, c = some cell ∧ 0 ≤ cell.hp ∧ 0 ≤ cell.coins ∧
      ¬ (0 < cell.coins ∧ cell.item ≠ none)) ∧
    (y = 0 → ∀ c ∈ row, ∃ cell, c = some cell ∧ cell.coins = 0 ∧
      cell.item = some layer.dirt ∧ cell.hp = (layer.dirt.hp : ℚ)) := by
  obtain ⟨-, -, -, -, -, -, hdraw, hroll⟩ := hlaw
  unfold generate_row at hrow
  rw [hlayer] at hrow
  simp only [Option.map_some', Option.some_inj] at hrow
  set base : List (Option Cell) := (List.range GRID_WIDTH).map fun i =>
    some { coins := 0, item := some layer.dirt, dirt_index := plan.base_dirt_idx i,
           hp := qofInt layer.dirt.hp } with hbase
  have hbaseP : ∀ c ∈ base, ∃ cell, c = some cell ∧ cell.coins = 0 ∧
      cell.item = some layer.dirt ∧ cell.hp = (layer.dirt.hp : ℚ) := by
    intro c hc
    rw [hbase] at hc
    obtain ⟨i, -, hi⟩ := List.mem_map.mp hc
    exact ⟨_, hi.symm, rfl, rfl, qofInt_eq layer.dirt.hp⟩
  by_cases hy0 : y = 0
  · rw [if_pos hy0] at hrow
    subst hrow
    refine ⟨by simp [hbase], ?_, fun _ => hbaseP⟩
    intro c hc
    obtain ⟨cell, hcell, hc0, hit, hhp⟩ := hbaseP c hc
    refine ⟨cell, hcell, ?_, by omega, ?_⟩
    · rw [hhp]
      exact_mod_cast hdirt
    · rintro ⟨hpos, -⟩
      omega
  · rw [if_neg hy0] at hrow
    have hstep_len : ∀ (r : List (Option Cell)) (ipos : ℕ × ℕ),
        ((fun (row : List (Option Cell)) (ipos : ℕ × ℕ) =>
          match plan.spawn_draw ipos.1 with
          | none =>
            row.set ipos.2 (some { coins := pyRound (qmul (plan.coin_roll ipos.1) cm),
                                   item := none, dirt_index := plan.spawn_dirt_idx ipos.1,
                                   hp := 0 })
          | some item =>
            row.set ipos.2 (some { coins := 0, item := some item,
                                   dirt_index := plan.spawn_dirt_idx ipos.1,
                                   hp := qofInt item.hp })) r ipos).length = r.length := by
      intro r ipos
      dsimp only
      cases plan.spawn_draw ipos.1 with
      | none => exact List.length_set ..
      | some item => exact List.length_set ..
    constructor
    · rw [← hrow, foldl_length_invariant _ hstep_len]
      simp [hbase]
    refine ⟨?_, fun h0 => absurd h0 hy0⟩
    rw [← hrow]
    refine foldl_forall_invariant _ _ ?_ plan.positions.enum base ?_
    · intro r ipos hr c hc
      cases hdr : plan.spawn_draw ipos.1 with
      | none =>
        rw [hdr] at hc
        rcases mem_of_mem_set _ _ _ _ hc with hmem | heq
        · exact hr c hmem
        · refine ⟨_, heq, le_rfl, ?_, ?_⟩
          · apply pyRound_nonneg
            rw [qmul_eq]
            have hyq : (0 : ℚ) ≤ (y : ℚ) := by exact_mod_cast hy
            have hroll0 : (0 : ℚ) ≤ plan.coin_roll ipos.1 :=
              le_trans (le_min (by nlinarith) (by nlinarith)) (hroll ipos.1).1
            exact mul_nonneg hroll0 hcm
          · rintro ⟨-, hne⟩
            exact hne rfl
      | some item =>
        rw [hdr] at hc
        rcases mem_of_mem_set _ _ _ _ hc with hmem | heq
        · exact hr c hmem
        · refine ⟨_, heq, ?_, le_rfl, ?_⟩
          · show (0 : ℚ) ≤ qofInt item.hp
            rw [qofInt_eq]
            have hh := hitems (some item) (by rw [← hdr]; exact hdraw ipos.1)
            simp only [Option.map_some', Option.getD_some] at hh
            exact_mod_cast hh
          · rintro ⟨hpos, -⟩
            simp at hpos
    · intro c hc
      obtain ⟨cell, hcell, hc0, hit, hhp⟩ := hbaseP c hc
      refine ⟨cell, hcell, ?_, by omega, ?_⟩
      · rw [hhp]
        exact_mod_cast hdirt
      · rintro ⟨hpos, -⟩
        omega

/-- The first (depth-0) layer of the backyard biome. -/
def backyardLayer0 : Layer := Biomes.backyard.layers.get ⟨0, by decide⟩

/-- A lawful `RowPlan` drawing one coin spawn at column 2 with
`uniform(10*3, 20*3) = 35`. -/
def c7goodplan : RowPlan :=
  { base_dirt_idx := fun _ => 0, spawns := 1, positions := [2],
    spawn_dirt_idx := fun _ => 0, spawn_draw := fun _ => none, coin_roll := fun _ => 35 }

theorem c7goodplan_lawful : c7goodplan.Lawful backyardLayer0 3 := by
  refine ⟨fun i => show (0 : ℕ) < GEN_IMAGES_PER_DIRT by decide, by decide, by decide,
    by decide, by decide, fun i => show (0 : ℕ) < GEN_IMAGES_PER_DIRT by decide,
    fun i => show (none : Option Item) ∈ backyardLayer0.items.map Prod.fst by decide,
    fun i => ?_⟩
  show min ((10 : ℚ) * ((3 : ℤ) : ℚ)) (20 * ((3 : ℤ) : ℚ)) ≤ 35 ∧
    (35 : ℚ) ≤ max ((10 : ℚ) * ((3 : ℤ) : ℚ)) (20 * ((3 : ℤ) : ℚ))
  norm_num

/-- C7 witness: the amended row property instantiated on the real backyard
biome at depth 3 with a lawful one-coin-spawn plan. -/
theorem C7_generate_row_witness :
    ∃ row, generate_row Biomes.backyard 1 c7goodplan 3 = some row ∧
      row.length = GRID_WIDTH ∧
      (∀ c ∈ row, ∃ cell, c = some cell ∧ 0 ≤ cell.hp ∧ 0 ≤ cell.coins ∧
        ¬ (0 < cell.coins ∧ cell.item ≠ none)) :=
  match h : generate_row Biomes.backyard 1 c7goodplan 3 with
  | some row =>
    ⟨row, rfl, by
      have := C7_generate_row Biomes.backyard 1 (by norm_num) c7goodplan 3 (by norm_num)
        backyardLayer0 (by decide) c7goodplan_lawful (by decide) (by decide) row h
      exact ⟨this.1, this.2.1⟩⟩
  | none => by
    have hs : (generate_row Biomes.backyard 1 c7goodplan 3).isSome = true := by decide
    rw [h] at hs
    exact absurd hs (by decide)

/-- A lawful `RowPlan` for `y = -1`: one coin spawn at column 2 with
`uniform(10*(-1), 20*(-1)) = -15`. -/
def c7badplan : RowPlan :=
  { base_dirt_idx := fun _ => 0, spawns := 1, positions := [2],
    spawn_dirt_idx := fun _ => 0, spawn_draw := fun _ => none, coin_roll := fun _ => -15 }

/-- C7 counterexample: the claim is stated for *every* `y`, but at `y = -1`
(a value `generate_row` itself accepts, though the program only ever calls
it with `y ≥ 0`) a lawful `uniform(10*y, 20*y)` draw of `-15` produces a
cell with negative `coins`, violating `coins >= 0`. -/
theorem C7_cex :
    Biomes.backyard.get_layer (-1) = some backyardLayer0 ∧
    c7badplan.Lawful backyardLayer0 (-1) ∧
    ∃ row, generate_row Biomes.backyard 1 c7badplan (-1) = some row ∧
      ¬ (∀ c ∈ row, 0 ≤ ((c.map Cell.coins).getD 0)) := by
  refine ⟨by decide, ?_, ?_⟩
  · refine ⟨fun i => show (0 : ℕ) < GEN_IMAGES_PER_DIRT by decide, by decide, by decide,
      by decide, by decide, fun i => show (0 : ℕ) < GEN_IMAGES_PER_DIRT by decide,
      fun i => show (none : Option Item) ∈ backyardLayer0.items.map Prod.fst by decide,
      fun i => ?_⟩
    show min ((10 : ℚ) * ((-1 : ℤ) : ℚ)) (20 * ((-1 : ℤ) : ℚ)) ≤ -15 ∧
      (-15 : ℚ) ≤ max ((10 : ℚ) * ((-1 : ℤ) : ℚ)) (20 * ((-1 : ℤ) : ℚ))
    norm_num
  · match h : generate_row Biomes.backyard 1 c7badplan (-1) with
    | some row =>
      refine ⟨row, rfl, ?_⟩
      have hbad : ¬ ∀ c ∈ (generate_row Biomes.backyard 1 c7badplan (-1)).getD [],
          0 ≤ ((c.map Cell.coins).getD 0) := by decide
      rw [h] at hbad
      simpa using hbad
    | none =>
      have hs : (generate_row Biomes.backyard 1 c7badplan (-1)).isSome = true := by decide
      rw [h] at hs
      exact absurd hs (by decide)

/-! ### Claim C8: weighted sampling without replacement -/

theorem sumWeights_shift {α : Type} :
    ∀ (l : List (α × ℚ)) (a : ℚ),
      l.foldl (fun acc q => qadd acc q.2) a = a + l.foldl (fun acc q => qadd acc q.2) 0 := by
  intro l
  induction l with
  | nil => intro a; simp
  | cons q rest ih =>
    intro a
    rw [List.foldl_cons, List.foldl_cons, ih (qadd a q.2), ih (qadd 0 q.2),
      qadd_eq, qadd_eq]
    ring

theorem sumWeights_cons {α : Type} (p : α × ℚ) (l : List (α × ℚ)) :
    sumWeights (p :: l) = p.2 + sumWeights l := by
  unfold sumWeights
  rw [List.foldl_cons, sumWeights_shift, qadd_eq]
  ring

/-- If `r` lies below the remaining cumulative weight, the inner scan finds
an element (otherwise `r` dropped below the running total). -/
theorem cumulFind_isSome {α : Type} (r : ℚ) :
    ∀ (l : List (α × ℚ)) (acc : ℚ), r < acc + sumWeights l →
      (cumulFind r acc l).isSome = true ∨ r < acc := by
  intro l
  induction l with
  | nil =>
    intro acc h
    right
    unfold sumWeights at h
    simpa using h
  | cons p rest ih =>
    intro acc h
    rw [cumulFind]
    by_cases hp : r < qadd acc p.2
    · rw [if_pos hp]
      exact Or.inl rfl
    · rw [if_neg hp]
      rw [sumWeights_cons] at h
      rcases ih (qadd acc p.2) (by rw [qadd_eq]; linarith) with h1 | h1
      · exact Or.inl h1
      · exact absurd h1 hp

/-- The element the scan picks is in the table, and — provided weights are
nonnegative and `r` is at least the running total — its weight is strictly
positive (a zero-weight entry cannot advance the cumulative total past
`r`). -/
theorem cumulFind_mem {α : Type} (r : ℚ) :
    ∀ (l : List (α × ℚ)) (acc : ℚ), (∀ p ∈ l, 0 ≤ p.2) → acc ≤ r →
      ∀ a, cumulFind r acc l = some a → ∃ w, (a, w) ∈ l ∧ 0 < w := by
  intro l
  induction l with
  | nil => intro acc _ _ a h; simp [cumulFind] at h
  | cons p rest ih =>
    intro acc hw hacc a h
    rw [cumulFind] at h
    by_cases hp : r < qadd acc p.2
    · rw [if_pos hp] at h
      simp only [Option.some_inj] at h
      subst h
      refine ⟨p.2, by simp, ?_⟩
      rw [qadd_eq] at hp
      linarith
    · rw [if_neg hp] at h
      obtain ⟨w, hmem, hwpos⟩ := ih (qadd acc p.2)
        (fun q hq => hw q (List.mem_cons_of_mem _ hq))
        (by rw [qadd_eq]; push_neg at hp; rw [qadd_eq] at hp; linarith) a h
      exact ⟨w, List.mem_cons_of_mem _ hmem, hwpos⟩

/-- After `src.pop(a)` (erasing the first — by key-nodupness only — pair
with key `a`), the key `a` is gone. -/
theorem eraseP_key_gone {α : Type} [DecidableEq α] (a : α) :
    ∀ l : List (α × ℚ), (l.map Prod.fst).Nodup →
      ∀ p ∈ l.eraseP (fun q => decide (q.1 = a)), p.1 ≠ a := by
  intro l
  induction l with
  | nil => intro _ p hp; simp at hp
  | cons q rest ih =>
    intro hnd p hp
    by_cases hq : q.1 = a
    · rw [List.eraseP_cons_of_pos (by simpa using hq)] at hp
      have hnotin : q.1 ∉ rest.map Prod.fst := (List.nodup_cons.mp hnd).1
      intro hpa
      exact hnotin (hq ▸ hpa ▸ List.mem_map_of_mem Prod.fst hp)
    · rw [List.eraseP_cons_of_neg (by simpa using hq)] at hp
      rcases List.mem_cons.mp hp with h1 | h1
      · subst h1
        exact hq
      · exact ih (List.nodup_cons.mp hnd).2 p h1

/-- Full specification of the wheel `weighted_sample`: with nodup keys,
nonnegative weights and in-range uniform draws, it returns exactly `k`
pairwise-distinct keys, each of strictly positive weight in the original
table. -/
theorem wheel_sample_spec {α : Type} [DecidableEq α] (k : ℕ) :
    ∀ (src : List (α × ℚ)) (rand : ℕ → ℚ) (j : ℕ),
      (src.map Prod.fst).Nodup → (∀ p ∈ src, 0 ≤ p.2) →
      randOK k src rand j = true →
      (weighted_sample k src rand j).length = k ∧
      (weighted_sample k src rand j).Nodup ∧
      (∀ a ∈ weighted_sample k src rand j, ∃ w, (a, w) ∈ src ∧ 0 < w) := by
  induction k with
  | zero =>
    intro src rand j _ _ _
    exact ⟨rfl, List.nodup_nil, by simp [weighted_sample]⟩
  | succ n ih =>
    intro src rand j hnd hw hok
    rw [randOK] at hok
    simp only [Bool.and_eq_true, decide_eq_true_eq] at hok
    obtain ⟨⟨hr0, hrlt⟩, hok⟩ := hok
    have hfound : (cumulFind (rand j) 0 src).isSome = true := by
      rcases cumulFind_isSome (rand j) src 0 (by linarith) with h | h
      · exact h
      · linarith
    obtain ⟨a, ha⟩ := Option.isSome_iff_exists.mp hfound
    rw [weighted_sample, ha]
    rw [ha] at hok
    have hsub : List.Sublist (src.eraseP (fun q => decide (q.1 = a))) src :=
      List.eraseP_sublist _
    have hnd' : ((src.eraseP (fun q => decide (q.1 = a))).map Prod.fst).Nodup :=
      (hsub.map Prod.fst).nodup hnd
    have hw' : ∀ p ∈ src.eraseP (fun q => decide (q.1 = a)), 0 ≤ p.2 :=
      fun p hp => hw p (hsub.subset hp)
    obtain ⟨hlen, hnodup, hmem⟩ := ih (src.eraseP (fun q => decide (q.1 = a))) rand (j + 1)
      hnd' hw' hok
    refine ⟨by simp [hlen], ?_, ?_⟩
    · rw [List.nodup_cons]
      refine ⟨?_, hnodup⟩
      intro hin
      obtain ⟨w, hmem2, -⟩ := hmem a hin
      exact eraseP_key_gone a src hnd (a, w) hmem2 rfl
    · intro b hb
      rcases List.mem_cons.mp hb with h1 | h1
      · subst h1
        exact cumulFind_mem (rand j) src 0 hw hr0 b ha
      · obtain ⟨w, hmem2, hwpos⟩ := hmem b h1
        exact ⟨w, hsub.subset hmem2, hwpos⟩

namespace Profit

/-- Loop invariant of `Profit.weighted_sample` relative to the original
weight list `worig`: chosen indices are distinct, their current weight has
been zeroed, their original weight was nonzero, and every current weight is
either untouched or a zeroed chosen one. -/
def Inv (worig : List ℚ) (indices : List ℕ) (w : List ℚ) : Prop :=
  indices.Nodup ∧
  w.length = worig.length ∧
  (∀ i ∈ indices, w.getD i 0 = 0) ∧
  (∀ i ∈ indices, i < worig.length ∧ worig.getD i 0 ≠ 0) ∧
  (∀ j, w.getD j 0 = worig.getD j 0 ∨ w.getD j 0 = 0)

theorem getD_eq_get? (l : List ℚ) (n : ℕ) : l.getD n 0 = (l.get? n).getD 0 :=
  List.getD_eq_getD_get? l 0 n

theorem getD_ne_zero_lt {l : List ℚ} {n : ℕ} (h : l.getD n 0 ≠ 0) : n < l.length := by
  by_contra hge
  push_neg at hge
  rw [getD_eq_get?, List.get?_eq_none.mpr hge] at h
  exact h rfl

theorem processBatch_spec (worig : List ℚ) :
    ∀ (b : List ℕ) (indices : List ℕ) (w : List ℚ),
      Inv worig indices w →
      Inv worig (processBatch b (indices, w)).1 (processBatch b (indices, w)).2 ∧
      (processBatch b (indices, w)).1.length ≤ indices.length + b.length := by
  intro b
  induction b with
  | nil =>
    intro indices w hInv
    exact ⟨hInv, by simp [processBatch]⟩
  | cons i rest ih =>
    intro indices w hInv
    obtain ⟨hnd, hlen, hzero, horig, hrel⟩ := hInv
    rw [processBatch]
    by_cases hw : w.getD i 0 ≠ 0
    · rw [if_pos hw]
      have hilt : i < w.length := getD_ne_zero_lt hw
      have hnotin : i ∉ indices := fun hin => hw (hzero i hin)
      have hInv' : Inv worig (indices ++ [i]) (w.set i 0) := by
        refine ⟨?_, ?_, ?_, ?_, ?_⟩
        · simp [List.nodup_append, hnd, hnotin]
        · rw [List.length_set]
          exact hlen
        · intro j hj
          rcases List.mem_append.mp hj with hj1 | hj1
          · by_cases hji : j = i
            · subst hji
              rw [getD_eq_get?, List.get?_set_eq_of_lt _ hilt]
              rfl
            · rw [getD_eq_get?, List.get?_set_ne _ _ (fun h => hji h.symm), ← getD_eq_get?]
              exact hzero j hj1
          · have hji : j = i := by simpa using hj1
            rw [hji, getD_eq_get?, List.get?_set_eq_of_lt _ hilt]
            rfl
        · intro j hj
          rcases List.mem_append.mp hj with hj1 | hj1
          · exact horig j hj1
          · have hji : j = i := by simpa using hj1
            rw [hji]
            constructor
            · omega
            · rcases hrel i with h1 | h1
              · rw [← h1]
                exact hw
              · exact absurd h1 hw
        · intro j
          by_cases hji : j = i
          · subst hji
            right
            rw [getD_eq_get?, List.get?_set_eq_of_lt _ hilt]
            rfl
          · rw [getD_eq_get?, List.get?_set_ne _ _ (fun h => hji h.symm), ← getD_eq_get?]
            exact hrel j
      obtain ⟨hI, hL⟩ := ih (indices ++ [i]) (w.set i 0) hInv'
      refine ⟨hI, ?_⟩
      simp only [List.length_append, List.length_singleton] at hL
      simp only [List.length_cons]
      omega
    · rw [if_neg hw]
      obtain ⟨hI, hL⟩ := ih indices w ⟨hnd, hlen, hzero, horig, hrel⟩
      refine ⟨hI, by simp only [List.length_cons]; omega⟩

theorem sample_loop_spec (worig : List ℚ) (k : ℕ) (batches : ℕ → List ℕ) :
    ∀ (fuel : ℕ) (indices : List ℕ) (w : List ℚ) (t : ℕ),
      Inv worig indices w → indices.length ≤ k →
      batchesOK k batches fuel indices w t = true →
      (sample_loop k batches fuel indices w t).length = k ∧
      (sample_loop k batches fuel indices w t).Nodup ∧
      (∀ i ∈ sample_loop k batches fuel indices w t,
        i < worig.length ∧ worig.getD i 0 ≠ 0) := by
  intro fuel
  induction fuel with
  | zero =>
    intro indices w t hInv hle hok
    rw [batchesOK] at hok
    simp only [beq_iff_eq] at hok
    rw [sample_loop]
    obtain ⟨hnd, -, -, horig, -⟩ := hInv
    exact ⟨by omega, hnd, fun i hi => horig i hi⟩
  | succ n ih =>
    intro indices w t hInv hle hok
    rw [batchesOK] at hok
    rw [sample_loop]
    by_cases hdone : k - indices.length = 0
    · rw [if_pos hdone]
      obtain ⟨hnd, -, -, horig, -⟩ := hInv
      exact ⟨by omega, hnd, fun i hi => horig i hi⟩
    · rw [if_neg hdone]
      simp only [Bool.or_eq_true, beq_iff_eq, Bool.and_eq_true, List.all_eq_true,
        decide_eq_true_eq, bne_iff_ne] at hok
      rcases hok with hok | ⟨⟨hblen, hbmem⟩, hok⟩
      · exact absurd hok hdone
      · have hInv' := (processBatch_spec worig (batches t) indices w hInv).1
        have hlen' := (processBatch_spec worig (batches t) indices w hInv).2
        exact ih (processBatch (batches t) (indices, w)).1
          (processBatch (batches t) (indices, w)).2 (t + 1) hInv' (by omega) hok

theorem pyGets_spec {α : Type} (population : List α) (hpop : population.Nodup) :
    ∀ idx : List ℕ, idx.Nodup → (∀ i ∈ idx, i < population.length) →
      ∃ l, pyGets population idx = some l ∧ l.length = idx.length ∧ l.Nodup ∧
        ∀ a ∈ l, ∃ i ∈ idx, population.get? i = some a := by
  intro idx
  induction idx with
  | nil => intro _ _; exact ⟨[], rfl, rfl, List.nodup_nil, by simp⟩
  | cons i rest ih =>
    intro hnd hbound
    obtain ⟨l, hl, hllen, hlnd, hlmem⟩ := ih (List.nodup_cons.mp hnd).2
      (fun j hj => hbound j (List.mem_cons_of_mem _ hj))
    have hi : i < population.length := hbound i (List.mem_cons_self _ _)
    obtain ⟨a, ha⟩ := Option.isSome_iff_exists.mp (by
      rw [List.get?_eq_get hi]; rfl :
      (population.get? i).isSome = true)
    refine ⟨a :: l, ?_, by simp [hllen], ?_, ?_⟩
    · rw [pyGets, ha, hl]
    · rw [List.nodup_cons]
      refine ⟨?_, hlnd⟩
      intro hain
      obtain ⟨i', hi'mem, hi'⟩ := hlmem a hain
      have : i = i' := List.get?_inj hi hpop (by rw [ha, hi'])
      exact (List.nodup_cons.mp hnd).1 (this ▸ hi'mem)
    · intro b hb
      rcases List.mem_cons.mp hb with h1 | h1
      · subst h1
        exact ⟨i, List.mem_cons_self _ _, ha⟩
      · obtain ⟨i', hi'mem, hi'⟩ := hlmem b h1
        exact ⟨i', List.mem_cons_of_mem _ hi'mem, hi'⟩

/-- Full specification of `Profit.weighted_sample`: with a nodup population,
matching weight-list length and lawful `random.choices` batches, it returns
exactly `k` distinct population members, never one whose weight is zero. -/
theorem profit_sample_spec {α : Type} (population : List α) (weights : List ℚ)
    (k fuel : ℕ) (batches : ℕ → List ℕ) (hpop : population.Nodup)
    (hlen : weights.length = population.length)
    (hok : batchesOK k batches fuel [] weights 0 = true) :
    ∃ l, weighted_sample population weights k batches fuel = some l ∧
      l.length = k ∧ l.Nodup ∧
      (∀ a ∈ l, ∃ i, population.get? i = some a ∧
        ∃ w, weights.get? i = some w ∧ w ≠ 0) := by
  have hInv0 : Inv weights [] weights :=
    ⟨List.nodup_nil, rfl, by simp, by simp, fun j => Or.inl rfl⟩
  obtain ⟨hklen, hknd, hkmem⟩ := sample_loop_spec weights k batches fuel [] weights 0
    hInv0 (by simp) hok
  obtain ⟨l, hl, hllen, hlnd, hlmem⟩ := pyGets_spec population hpop
    (sample_loop k batches fuel [] weights 0) hknd
    (fun i hi => hlen ▸ (hkmem i hi).1)
  refine ⟨l, hl, by omega, hlnd, ?_⟩
  intro a ha
  obtain ⟨i, himem, higet⟩ := hlmem a ha
  obtain ⟨-, hwne⟩ := hkmem i himem
  refine ⟨i, higet, ?_⟩
  rw [getD_eq_get?] at hwne
  cases hw : weights.get? i with
  | none => rw [hw] at hwne; exact absurd rfl hwne
  | some w =>
    rw [hw] at hwne
    exact ⟨w, rfl, by simpa using hwne⟩

end Profit

/-- C8: weighted sampling without replacement of `k` items from a table with
nonnegative weights and at least `k` nonzero-weight entries returns `k`
pairwise-distinct keys, and a zero-weight key is never returned — for both
implementations: `weighted_sample` in `app/features/wheel.py` (uniform draws
over the remaining cumulative weight, drawn key popped) and
`Profit.weighted_sample` in `app/extensions/profit.py` (`random.choices`
batches filtered and zeroed). -/
theorem C8_weighted_sample {α : Type} [DecidableEq α] :
    (∀ (k : ℕ) (src : List (α × ℚ)) (rand : ℕ → ℚ),
      (src.map Prod.fst).Nodup → (∀ p ∈ src, 0 ≤ p.2) →
      k ≤ src.countP (fun p => decide (0 < p.2)) →
      randOK k src rand 0 = true →
      (weighted_sample k src rand 0).length = k ∧
      (weighted_sample k src rand 0).Nodup ∧
      (∀ a ∈ weighted_sample k src rand 0, ∃ w, (a, w) ∈ src ∧ 0 < w)) ∧
    (∀ (population : List α) (weights : List ℚ) (k fuel : ℕ) (batches : ℕ → List ℕ),
      population.Nodup → weights.length = population.length →
      (weights.countP fun w => decide (w ≠ 0)) ≥ k →
      Profit.batchesOK k batches fuel [] weights 0 = true →
      ∃ l, Profit.weighted_sample population weights k batches fuel = some l ∧
        l.length = k ∧ l.Nodup ∧
        (∀ a ∈ l, ∃ i, population.get? i = some a ∧
          ∃ w, weights.get? i = some w ∧ w ≠ 0)) := by
  constructor
  · intro k src rand hnd hw _ hok
    exact wheel_sample_spec k src rand 0 hnd hw hok
  · intro population weights k fuel batches hpop hlen _ hok
    exact Profit.profit_sample_spec population weights k fuel batches hpop hlen hok

/-- C8 witness: both samplers on concrete three-entry tables with one
zero-weight entry, drawing `k = 2`. -/
theorem C8_weighted_sample_witness :
    ((weighted_sample 2 [((10 : ℕ), (1 : ℚ)), (20, 1), (30, 0)] (fun _ => 0) 0).length = 2 ∧
      (weighted_sample 2 [((10 : ℕ), (1 : ℚ)), (20, 1), (30, 0)] (fun _ => 0) 0).Nodup ∧
      (∀ a ∈ weighted_sample 2 [((10 : ℕ), (1 : ℚ)), (20, 1), (30, 0)] (fun _ => 0) 0,
        ∃ w, (a, w) ∈ [((10 : ℕ), (1 : ℚ)), (20, 1), (30, 0)] ∧ 0 < w)) ∧
    (∃ l, Profit.weighted_sample [(10 : ℕ), 20, 30] [(1 : ℚ), 1, 0] 2
        (fun _ => [0, 1]) 3 = some l ∧
      l.length = 2 ∧ l.Nodup ∧
      (∀ a ∈ l, ∃ i, [(10 : ℕ), 20, 30].get? i = some a ∧
        ∃ w, [(1 : ℚ), 1, 0].get? i = some w ∧ w ≠ 0)) := by
  constructor
  · exact (C8_weighted_sample (α := ℕ)).1 2 [((10 : ℕ), (1 : ℚ)), (20, 1), (30, 0)]
      (fun _ => 0) (by decide) (by decide) (by decide) (by decide)
  · exact (C8_weighted_sample (α := ℕ)).2 [(10 : ℕ), 20, 30] [(1 : ℚ), 1, 0] 2 3
      (fun _ => [0, 1]) (by decide) (by decide) (by decide) (by decide)
